import Mathlib

/-!
Verification development for the flat-file database engine
(`SimpleTableManager.py`, class `SimpleDB`).

The engine is embedded shallowly: Python text is modelled as `List Char`
(Python `str` compares and slices by code point, which `List Char` mirrors
exactly), persisted JSON state as Lean structures, page CSV files as lists
of rows, and every fallible operation as an `Except`-valued function that
returns the table state as persisted at the moment an exception propagates.
-/

namespace SimpleDB

/-- Python text, by code points. -/
abbrev Str := List Char

/-- Coerce a Lean string literal to the `Str` model. -/
def pstr (s : String) : Str := s.data

/-- The declared column types: `DATA_TYPES = {"int","float","bool","str","char"}`. -/
inductive DType where
  | int | float | bool | str | char
deriving DecidableEq

/-- An exact decimal `man / 10 ^ exp`, the idealization of a Python float
used here: every float these claims produce parses from a decimal literal
and is decimal-exact, so no rounding is modelled. Values are kept unreduced;
the claims never compare two numerically equal floats of different scale. -/
structure Dec where
  man : Int
  exp : Nat
deriving DecidableEq

namespace Dec

/-- The decimal denoting an integer. -/
def fromInt (n : Int) : Dec := ⟨n, 0⟩

/-- Exact addition by rescaling to the larger exponent. -/
def add (a b : Dec) : Dec :=
  if a.exp ≤ b.exp then ⟨a.man * (10 : Int) ^ (b.exp - a.exp) + b.man, b.exp⟩
  else ⟨a.man + b.man * (10 : Int) ^ (a.exp - b.exp), a.exp⟩

/-- Numeric `≤` by cross-scaling (denominators are positive). -/
def leB (a b : Dec) : Bool := decide (a.man * (10 : Int) ^ b.exp ≤ b.man * (10 : Int) ^ a.exp)

/-- Numeric `<` by cross-scaling. -/
def ltB (a b : Dec) : Bool := decide (a.man * (10 : Int) ^ b.exp < b.man * (10 : Int) ^ a.exp)

/-- Python `max(x, y)`: `x` if `x >= y` else `y`. -/
def maxD (x y : Dec) : Dec := if leB y x then x else y

/-- Python `min(x, y)`: `x` if `x <= y` else `y`. -/
def minD (x y : Dec) : Dec := if leB x y then x else y

end Dec

/-- A Python value produced by `_check_datatype`: `int`, `float`, `bool` or `str`
(`"char"` columns also pass through as strings). -/
inductive Value where
  | vInt : Int → Value
  | vFloat : Dec → Value
  | vBool : Bool → Value
  | vStr : Str → Value
deriving DecidableEq

/-- The error taxonomy: each constructor is one of the typed failures the
engine raises (Python `ValueError` / `KeyError` / `TypeError` / `IndexError`
carrying the messages built in `SimpleTableManager.py`). -/
inductive DBError where
  | duplicatePrimaryKey : Str → DBError
  | primaryKeyNotFound : Str → DBError
  | typeConversionError : Str → DType → DBError
  | unsupportedOperator : Str → DBError
  | invalidDeleteTarget : Str → DBError
  | columnNotFound : Str → DBError
  | keyMissing : Str → DBError
  | pyTypeError : DBError
  | indexError : DBError
  | fileNotFound : Nat → DBError
  | unpackMismatch : DBError
deriving DecidableEq

/-- Decimal digit test on a code point. -/
def isDig (c : Char) : Bool := decide ('0' ≤ c) && decide (c ≤ '9')

/-- Value of a nonempty all-digit character list, else `none`. -/
def digitsVal : Str → Option Nat
  | [] => none
  | cs =>
    if cs.all isDig then
      some (cs.foldl (fun acc c => acc * 10 + (c.toNat - '0'.toNat)) 0)
    else none

/-- Python `int(s)` on the textual forms this engine feeds it: optional sign
followed by decimal digits (surrounding whitespace stripped). `none` models
the `ValueError` raised on anything else. -/
def pyIntParse (cs : Str) : Option Int :=
  let cs := (cs.dropWhile (· = ' ')).reverse.dropWhile (· = ' ') |>.reverse
  match cs with
  | '-' :: rest => (digitsVal rest).map (fun n => -(n : Int))
  | '+' :: rest => (digitsVal rest).map (fun n => (n : Int))
  | rest => (digitsVal rest).map (fun n => (n : Int))

/-- Python `float(s)` on the decimal forms this engine feeds it: optional sign,
digits with an optional single decimal point (digits required on at least one
side). `none` models the `ValueError` on anything else (in particular on the
empty string, the field value of every tombstone slot). -/
def pyFloatParse (cs : Str) : Option Dec :=
  let cs := (cs.dropWhile (· = ' ')).reverse.dropWhile (· = ' ') |>.reverse
  let core : Str → Option Dec := fun body =>
    match body.splitOn '.' with
    | [a] => (digitsVal a).map (fun n => Dec.fromInt (n : Int))
    | [a, b] =>
      if a = [] && b = [] then none
      else if a = [] then
        (digitsVal b).map (fun n => ⟨(n : Int), b.length⟩)
      else if b = [] then
        (digitsVal a).map (fun n => Dec.fromInt (n : Int))
      else
        match digitsVal a, digitsVal b with
        | some x, some y => some ⟨(x : Int) * (10 : Int) ^ b.length + (y : Int), b.length⟩
        | _, _ => none
    | _ => none
  match cs with
  | '-' :: rest => (core rest).map (fun d => ⟨-d.man, d.exp⟩)
  | '+' :: rest => core rest
  | rest => core rest

/-- Python `str.lower()` restricted to ASCII letters, the only case the
`bool` branch of `_check_datatype` distinguishes. -/
def lowerStr (cs : Str) : Str :=
  cs.map (fun c => if decide ('A' ≤ c) && decide (c ≤ 'Z') then Char.ofNat (c.toNat + 32) else c)

/-- `_check_datatype(value, datatype)`: converts a textual field value to its
declared type, raising `ValueError (Value .. cannot be converted ..)` on
failure; `str`/`char` pass through unchanged. -/
def check_datatype (value : Str) (t : DType) : Except DBError Value :=
  match t with
  | .int =>
    match pyIntParse value with
    | some n => .ok (.vInt n)
    | none => .error (.typeConversionError value .int)
  | .float =>
    match pyFloatParse value with
    | some q => .ok (.vFloat q)
    | none => .error (.typeConversionError value .float)
  | .bool =>
    if lowerStr value = pstr "true" then .ok (.vBool true)
    else if lowerStr value = pstr "false" then .ok (.vBool false)
    else .error (.typeConversionError value .bool)
  | .str => .ok (.vStr value)
  | .char => .ok (.vStr value)

/-- Render an integer the way Python `str()` does. -/
def intStr (n : Int) : Str := (toString n).data

/-- Python `str()` of a float idealized as an exact decimal: the mantissa's
digits with the decimal point inserted (`str(2.5) = "2.5"`, integral floats
render with a `.0`). A float parsed from a form with trailing fractional
zeros would render them back; no claim serializes such a value. -/
def decStr (d : Dec) : Str :=
  if d.exp = 0 then intStr d.man ++ pstr ".0"
  else
    let neg := decide (d.man < 0)
    let digits := intStr (if neg then -d.man else d.man)
    let padded :=
      if digits.length ≤ d.exp then List.replicate (d.exp + 1 - digits.length) '0' ++ digits
      else digits
    let ip := padded.take (padded.length - d.exp)
    let fp := padded.drop (padded.length - d.exp)
    (if neg then ['-'] else []) ++ ip ++ '.' :: fp

/-- Python `str()` of a converted value, as used when a row is serialized
(`_prepare_row_data` appends `str(converted_value)`, `csv` writers
stringify). -/
def pyStr : Value → Str
  | .vStr s => s
  | .vInt n => intStr n
  | .vBool b => if b then pstr "True" else pstr "False"
  | .vFloat d => decStr d

/-! ### Python dicts as insertion-ordered association lists -/

/-- Python dict assignment `m[k] = v`: overwrite in place if the key exists,
else append at the end (insertion order preserved). -/
def dictUpd {κ β : Type} [BEq κ] (m : List (κ × β)) (k : κ) (v : β) : List (κ × β) :=
  if (m.lookup k).isSome then m.map (fun p => if p.1 == k then (k, v) else p)
  else m ++ [(k, v)]

/-- Python `m.pop(k)` / `del m[k]`: remove the entry, keep the rest in order. -/
def dictPop {κ β : Type} [BEq κ] (m : List (κ × β)) (k : κ) : List (κ × β) :=
  m.filter (fun p => !(p.1 == k))

/-- Dict lookup raising `KeyError` on a miss (`m[k]`). -/
def dictGet {β : Type} (m : List (Str × β)) (k : Str) : Except DBError β :=
  match m.lookup k with
  | some v => .ok v
  | none => .error (.keyMissing k)

/-! ### Persisted table state -/

/-- `<table>_schema.json`: ordered column map plus the primary-key column. -/
structure Schema where
  columns : List (Str × DType)
  primary_key : Str
deriving DecidableEq

/-- `<table>_metadata.json`: `auto_id` starts at `-1` ("none allocated"),
`deleted_ids` is the reclaimed-id list used as a LIFO stack. -/
structure Metadata where
  auto_id : Int
  deleted_ids : List Nat
deriving DecidableEq

/-- The page files `<table>_<n>.csv`: file number to list of CSV rows.
Presence of an entry models existence of the file on disk. -/
abbrev Pages := List (Nat × List (List Str))

/-- A table's full persisted state: schema, metadata, primary-key index
(`<table>_primary_key_index.json`, insertion-ordered) and page files. -/
structure Table where
  schema : Schema
  metadata : Metadata
  pk_index : List (Str × Nat)
  pages : Pages
deriving DecidableEq

/-- `_get_file_number(row_id)`: `row_id >> 6`. -/
def get_file_number (row_id : Nat) : Nat := row_id >>> 6

/-- `_get_row_position(row_id)`: `row_id % MAX_ROWS_PER_FILE` with
`MAX_ROWS_PER_FILE = 64`. -/
def get_row_position (row_id : Nat) : Nat := row_id % 64

/-- `create_table`: persists the schema, metadata `{"auto_id": -1,
"deleted_ids": []}`, an empty primary-key index, and an empty first CSV file. -/
def create_table (columns : List (Str × DType)) (primary_key : Str) : Table :=
  { schema := ⟨columns, primary_key⟩
    metadata := ⟨-1, []⟩
    pk_index := []
    pages := [(0, [])] }

/-- `_update_csv_file`: resolve the page file from the row id (creating it
empty if absent), pad with empty rows up to the slot position if the file is
shorter, overwrite the slot, write the whole file back. -/
def update_csv_file (ps : Pages) (row_id : Nat) (row_data : List Str) : Pages :=
  let fn := get_file_number row_id
  let rows := (ps.lookup fn).getD []
  let pos := get_row_position row_id
  let rows := if rows.length ≤ pos then rows ++ List.replicate (pos + 1 - rows.length) [] else rows
  dictUpd ps fn (rows.set pos row_data)

/-- `_allocate_row_id`: pop the most recently appended free id (the reused-id
path does not persist metadata; the popped id is filtered out later by
`insert`), else increment and persist `auto_id`. Returns the id and whether
it is newly allocated. -/
def allocate_row_id (m : Metadata) : (Nat × Bool) × Metadata :=
  match m.deleted_ids.getLast? with
  | some id => ((id, false), m)
  | none => ((((m.auto_id + 1).toNat), true), { m with auto_id := m.auto_id + 1 })

/-- `_prepare_row_data`: for each schema column in order, require it in
`values` (`KeyError` otherwise), convert it to the declared type, and append
`str(converted_value)`. -/
def prepare_row_data (schema : Schema) (values : List (Str × Str)) : Except DBError (List Str) :=
  schema.columns.mapM (fun cd =>
    match values.lookup cd.1 with
    | none => .error (.keyMissing cd.1)
    | some v => (check_datatype v cd.2).map pyStr)

/-- `insert(table_name, values)`. The flag `write_ok` models whether the
CSV write raises an I/O exception (the `try` body's only modelled failure
point); the `except Exception` handler decrements a newly allocated
`auto_id` and — as in the source — does not re-raise. The returned `Table`
is the on-disk state when the call returns or the exception propagates. -/
def insert (tbl : Table) (values : List (Str × Str)) (write_ok : Bool) :
    Table × Except DBError Unit :=
  match prepare_row_data tbl.schema values with
  | .error e => (tbl, .error e)
  | .ok row_data =>
    match values.lookup tbl.schema.primary_key with
    | none => (tbl, .error (.keyMissing tbl.schema.primary_key))
    | some primary_key_value =>
      if (tbl.pk_index.lookup primary_key_value).isSome then
        (tbl, .error (.duplicatePrimaryKey primary_key_value))
      else
        let alloc := allocate_row_id tbl.metadata
        let row_id := alloc.1.1
        let is_new_id := alloc.1.2
        let tbl := { tbl with metadata := alloc.2 }
        if write_ok then
          let tbl := { tbl with pages := update_csv_file tbl.pages row_id row_data }
          let tbl :=
            if is_new_id then tbl
            else { tbl with metadata :=
              { tbl.metadata with deleted_ids := tbl.metadata.deleted_ids.filter (fun i => !(i == row_id)) } }
          let tbl := { tbl with pk_index := dictUpd tbl.pk_index primary_key_value row_id }
          (tbl, .ok ())
        else
          let tbl :=
            if is_new_id then
              { tbl with metadata := { tbl.metadata with auto_id := tbl.metadata.auto_id - 1 } }
            else tbl
          (tbl, .ok ())

/-- `update(table_name, column_name, column_value, values)`: validate the
column and the primary-key lookup; when the primary-key column itself is
updated to a fresh different value, re-key the index (persisting it) before
the row data is converted and the slot rewritten. -/
def update (tbl : Table) (column_name column_value : Str) (values : List (Str × Str)) :
    Table × Except DBError Unit :=
  if (tbl.schema.columns.lookup column_name).isNone then
    (tbl, .error (.columnNotFound column_name))
  else if (tbl.pk_index.lookup column_value).isNone then
    (tbl, .error (.primaryKeyNotFound column_value))
  else
    let afterKey : Except DBError (Table × Nat) :=
      if column_name = tbl.schema.primary_key then
        match values.lookup column_name with
        | none => .error (.keyMissing column_name)
        | some new_primary_key_value =>
          if new_primary_key_value ≠ column_value then
            if (tbl.pk_index.lookup new_primary_key_value).isSome then
              .error (.duplicatePrimaryKey new_primary_key_value)
            else
              match tbl.pk_index.lookup column_value with
              | some row_id =>
                let rekeyed := dictUpd (dictPop tbl.pk_index column_value) new_primary_key_value row_id
                .ok ({ tbl with pk_index := rekeyed }, row_id)
              | none => .error (.primaryKeyNotFound column_value)
          else
            match tbl.pk_index.lookup column_value with
            | some row_id => .ok (tbl, row_id)
            | none => .error (.primaryKeyNotFound column_value)
      else
        match tbl.pk_index.lookup column_value with
        | some row_id => .ok (tbl, row_id)
        | none => .error (.primaryKeyNotFound column_value)
    match afterKey with
    | .error e => (tbl, .error e)
    | .ok (tbl, row_id) =>
      match prepare_row_data tbl.schema values with
      | .error e => (tbl, .error e)
      | .ok row_data =>
        ({ tbl with pages := update_csv_file tbl.pages row_id row_data }, .ok ())

/-- `delete(table_name, column_name, column_value)`: only the primary-key
column is a legal target; remove the index entry (persisting the index),
overwrite the slot with an all-empty tombstone row, then append the id to
`deleted_ids`. -/
def delete (tbl : Table) (column_name column_value : Str) :
    Table × Except DBError Unit :=
  if column_name ≠ tbl.schema.primary_key then
    (tbl, .error (.invalidDeleteTarget column_name))
  else
    match tbl.pk_index.lookup column_value with
    | none => (tbl, .error (.primaryKeyNotFound column_value))
    | some row_id =>
      let tbl := { tbl with pk_index := dictPop tbl.pk_index column_value }
      let tombstone : List Str := tbl.schema.columns.map (fun _ => ([] : Str))
      let tbl := { tbl with pages := update_csv_file tbl.pages row_id tombstone }
      let md := { tbl.metadata with deleted_ids := tbl.metadata.deleted_ids ++ [row_id] }
      let tbl := { tbl with metadata := md }
      (tbl, .ok ())

/-! ### Association-list lemmas -/

theorem lookup_map_replace {κ β : Type} [BEq κ] [LawfulBEq κ] (m : List (κ × β)) (k : κ) (v : β) :
    ((m.map fun p => if p.1 == k then (k, v) else p).lookup k) = (m.lookup k).map (fun _ => v) := by
  induction m with
  | nil => simp
  | cons p m ih =>
    obtain ⟨a, b⟩ := p
    by_cases h : a = k
    · subst h
      simp [List.lookup_cons]
    · have hb : (k == a) = false := beq_eq_false_iff_ne.mpr (fun e => h e.symm)
      have hab : (a == k) = false := beq_eq_false_iff_ne.mpr h
      simp [List.lookup_cons, hab, hb, ih]

theorem lookup_map_replace_ne {κ β : Type} [BEq κ] [LawfulBEq κ] (m : List (κ × β)) (k k' : κ)
    (v : β) (h : k' ≠ k) :
    ((m.map fun p => if p.1 == k then (k, v) else p).lookup k') = m.lookup k' := by
  induction m with
  | nil => simp
  | cons p m ih =>
    obtain ⟨a, b⟩ := p
    by_cases hp : a = k
    · subst hp
      have h1 : (k' == a) = false := beq_eq_false_iff_ne.mpr h
      simp [List.lookup_cons, h1, ih]
    · have hab : (a == k) = false := beq_eq_false_iff_ne.mpr hp
      cases hc : (k' == a) with
      | true => simp [List.lookup_cons, hab, hc]
      | false => simp [List.lookup_cons, hab, hc, ih]

theorem lookup_dictUpd_self {κ β : Type} [BEq κ] [LawfulBEq κ] (m : List (κ × β)) (k : κ) (v : β) :
    (dictUpd m k v).lookup k = some v := by
  unfold dictUpd
  split
  · rename_i h
    rw [lookup_map_replace]
    cases hm : m.lookup k with
    | none => rw [hm] at h; simp at h
    | some w => simp
  · rename_i h
    rw [List.lookup_append]
    cases hm : m.lookup k with
    | none => simp [List.lookup_cons]
    | some w => rw [hm] at h; simp at h

theorem lookup_dictUpd_ne {κ β : Type} [BEq κ] [LawfulBEq κ] (m : List (κ × β)) (k k' : κ) (v : β)
    (h : k' ≠ k) : (dictUpd m k v).lookup k' = m.lookup k' := by
  unfold dictUpd
  split
  · exact lookup_map_replace_ne m k k' v h
  · rw [List.lookup_append]
    cases hm : m.lookup k' with
    | none =>
      have h1 : (k' == k) = false := beq_eq_false_iff_ne.mpr h
      simp [List.lookup_cons, h1]
    | some w => simp

theorem lookup_dictPop_ne {κ β : Type} [BEq κ] [LawfulBEq κ] (m : List (κ × β)) (k k' : κ)
    (h : k' ≠ k) : (dictPop m k).lookup k' = m.lookup k' := by
  induction m with
  | nil => simp [dictPop]
  | cons p m ih =>
    obtain ⟨a, b⟩ := p
    simp only [dictPop] at ih ⊢
    by_cases hp : a = k
    · have hk : (a == k) = true := beq_iff_eq.mpr hp
      have h2 : (k' == a) = false := beq_eq_false_iff_ne.mpr (hp ▸ h)
      simp [List.filter_cons, hk, List.lookup_cons, h2, ih]
    · have hk : (a == k) = false := beq_eq_false_iff_ne.mpr hp
      by_cases he : k' = a
      · subst he
        simp [List.filter_cons, hk, List.lookup_cons]
      · have h1 : (k' == a) = false := beq_eq_false_iff_ne.mpr he
        simp [List.filter_cons, hk, List.lookup_cons, h1, ih]

theorem lookup_dictPop_of_none {κ β : Type} [BEq κ] [LawfulBEq κ] (m : List (κ × β)) (k k' : κ)
    (h : m.lookup k' = none) : (dictPop m k).lookup k' = none := by
  induction m with
  | nil => simp [dictPop]
  | cons p m ih =>
    obtain ⟨a, b⟩ := p
    have h1 : (k' == a) = false := by
      cases hc : (k' == a) with
      | true => rw [List.lookup_cons, hc] at h; simp at h
      | false => rfl
    have h2 : m.lookup k' = none := by
      rw [List.lookup_cons, h1] at h; exact h
    simp only [dictPop] at ih ⊢
    cases hk : (a == k) with
    | true => simp [List.filter_cons, hk, ih h2]
    | false => simp [List.filter_cons, hk, List.lookup_cons, h1, ih h2]

theorem lookup_dictUpd_of_none {κ β : Type} [BEq κ] [LawfulBEq κ] (m : List (κ × β)) (k k' : κ)
    (v : β) (hne : k' ≠ k) (h : m.lookup k' = none) : (dictUpd m k v).lookup k' = none := by
  rw [lookup_dictUpd_ne m k k' v hne]; exact h

@[simp] theorem except_bind_ok {ε α β : Type} (a : α) (f : α → Except ε β) :
    (Except.ok a : Except ε α) >>= f = f a := rfl

@[simp] theorem except_bind_error {ε α β : Type} (e : ε) (f : α → Except ε β) :
    (Except.error e : Except ε α) >>= f = .error e := rfl

@[simp] theorem except_map_ok {ε α β : Type} (g : α → β) (a : α) :
    g <$> (Except.ok a : Except ε α) = .ok (g a) := rfl

@[simp] theorem except_map_error {ε α β : Type} (g : α → β) (e : ε) :
    g <$> (Except.error e : Except ε α) = .error e := rfl

@[simp] theorem except_pure_eq {ε α : Type} (a : α) :
    (pure a : Except ε α) = .ok a := rfl

instance exceptDecEq {ε α : Type} [DecidableEq ε] [DecidableEq α] :
    DecidableEq (Except ε α) := fun a b =>
  match a, b with
  | .error e, .error f =>
    if h : e = f then isTrue (by rw [h]) else isFalse (fun c => by cases c; exact h rfl)
  | .error _, .ok _ => isFalse (fun c => by cases c)
  | .ok _, .error _ => isFalse (fun c => by cases c)
  | .ok x, .ok y =>
    if h : x = y then isTrue (by rw [h]) else isFalse (fun c => by cases c; exact h rfl)

theorem filter_ne_concat (l : List Nat) (i : Nat) (h : i ∉ l) :
    (l ++ [i]).filter (fun x => !(x == i)) = l := by
  rw [List.filter_append]
  have h1 : l.filter (fun x => !(x == i)) = l := by
    apply List.filter_eq_self.mpr
    intro x hx
    have : x ≠ i := fun e => h (e ▸ hx)
    simp [this]
  simp [h1, List.filter]

/-- Characterization of a successful primary-key `delete`: index entry removed,
slot tombstoned, id appended to the free list. -/
theorem delete_pk_ok (tbl : Table) (ka : Str) (a : Nat)
    (hka : tbl.pk_index.lookup ka = some a) :
    delete tbl tbl.schema.primary_key ka =
      ({ tbl with pk_index := dictPop tbl.pk_index ka,
                  pages := update_csv_file tbl.pages a (tbl.schema.columns.map fun _ => ([] : Str)),
                  metadata := ⟨tbl.metadata.auto_id, tbl.metadata.deleted_ids ++ [a]⟩ }, .ok ()) := by
  simp [delete, hka]

/-- Characterization of a successful `insert` that reuses a free id: the most
recently appended free id is popped, removed from the free list, and the
persisted `auto_id` is untouched. -/
theorem insert_reused_ok (tbl : Table) (v : List (Str × Str)) (p : Str) (r : List Str)
    (l : List Nat) (i : Nat)
    (hprep : prepare_row_data tbl.schema v = .ok r)
    (hv : v.lookup tbl.schema.primary_key = some p)
    (hfresh : tbl.pk_index.lookup p = none)
    (hdel : tbl.metadata.deleted_ids = l ++ [i]) :
    insert tbl v true =
      ({ tbl with pages := update_csv_file tbl.pages i r,
                  metadata := ⟨tbl.metadata.auto_id, (l ++ [i]).filter (fun x => !(x == i))⟩,
                  pk_index := dictUpd tbl.pk_index p i }, .ok ()) := by
  simp [insert, hprep, hv, hfresh, allocate_row_id, hdel, List.getLast?_concat]

/-- Claim C1 counterexample input: a table whose primary-key index already
holds the value `x`, fed an insert that reuses `x` but supplies an
unconvertible value for the `int` column `age`. -/
def tblC1 : Table :=
  { schema := ⟨[(pstr "id", DType.str), (pstr "age", DType.int)], pstr "id"⟩
    metadata := ⟨0, []⟩
    pk_index := [(pstr "x", 0)]
    pages := [(0, [[pstr "x", pstr "30"]])] }

/-- Claim C1, counterexample: an insert whose primary-key value `x` is already
present in the index but whose `age` value fails integer conversion is
rejected by `_prepare_row_data` with a type-conversion error, not with
`DuplicatePrimaryKey` — the claim's universally quantified error type is
wrong for such inserts (state is still left unchanged and no id consumed). -/
theorem c1_counterexample :
    (tblC1.pk_index.lookup (pstr "x")).isSome = true ∧
    insert tblC1 [(pstr "id", pstr "x"), (pstr "age", pstr "bad")] true
      = (tblC1, .error (.typeConversionError (pstr "bad") DType.int)) :=
  ⟨by decide, by decide⟩

/-- Claim C1 (amended): for every table and every insert whose supplied values
pass schema validation and whose primary-key value is already present in the
primary-key index, the insert fails with `DuplicatePrimaryKey` before any row
id is allocated, and the whole persisted state — `auto_id`, `deleted_ids`, the
primary-key index and every page file — is returned unchanged. -/
theorem c1_duplicate_key_rejected (tbl : Table) (values : List (Str × Str))
    (row_data : List Str) (pkv : Str) (wo : Bool)
    (hprep : prepare_row_data tbl.schema values = .ok row_data)
    (hpk : values.lookup tbl.schema.primary_key = some pkv)
    (hdup : (tbl.pk_index.lookup pkv).isSome = true) :
    insert tbl values wo = (tbl, .error (.duplicatePrimaryKey pkv)) := by
  unfold insert
  rw [hprep, hpk]
  simp [hdup]

/-- Claim C1 witness: the amended theorem applied to a concrete duplicate-key
insert with valid values. -/
theorem c1_witness :
    insert tblC1 [(pstr "id", pstr "x"), (pstr "age", pstr "31")] true
      = (tblC1, .error (.duplicatePrimaryKey (pstr "x"))) :=
  c1_duplicate_key_rejected tblC1 [(pstr "id", pstr "x"), (pstr "age", pstr "31")]
    [pstr "x", pstr "31"] (pstr "x") true (by decide) (by decide) (by decide)

/-- Claim C2: free-id reuse is LIFO. `_allocate_row_id` pops the most recently
appended free id (without advancing the counter), advances the persisted
`auto_id` only when the free list is empty, and in the delete-`a`-then-`b`
scenario the next insert reuses `b` and the one after reuses `a`, with
`auto_id` never advanced. -/
theorem c2_free_id_reuse_lifo :
    (∀ m : Metadata, m.deleted_ids = [] →
      allocate_row_id m = (((m.auto_id + 1).toNat, true), ⟨m.auto_id + 1, []⟩)) ∧
    (∀ (m : Metadata) (l : List Nat) (i : Nat), m.deleted_ids = l ++ [i] →
      allocate_row_id m = ((i, false), m)) ∧
    (∀ (tbl s1 s2 s3 s4 : Table) (ka kb p1 p2 : Str) (a b : Nat)
      (v1 v2 : List (Str × Str)) (r1 r2 : List Str),
      tbl.pk_index.lookup ka = some a →
      tbl.pk_index.lookup kb = some b →
      kb ≠ ka → a ≠ b →
      a ∉ tbl.metadata.deleted_ids → b ∉ tbl.metadata.deleted_ids →
      prepare_row_data tbl.schema v1 = .ok r1 →
      prepare_row_data tbl.schema v2 = .ok r2 →
      v1.lookup tbl.schema.primary_key = some p1 →
      v2.lookup tbl.schema.primary_key = some p2 →
      tbl.pk_index.lookup p1 = none →
      tbl.pk_index.lookup p2 = none →
      p2 ≠ p1 →
      s1 = (delete tbl tbl.schema.primary_key ka).1 →
      s2 = (delete s1 s1.schema.primary_key kb).1 →
      s3 = (insert s2 v1 true).1 →
      s4 = (insert s3 v2 true).1 →
      (insert s2 v1 true).2 = .ok () ∧
      s3.pk_index.lookup p1 = some b ∧
      (insert s3 v2 true).2 = .ok () ∧
      s4.pk_index.lookup p2 = some a ∧
      s4.metadata.auto_id = tbl.metadata.auto_id) := by
  refine ⟨?_, ?_, ?_⟩
  · intro m h
    simp [allocate_row_id, h]
  · intro m l i h
    simp [allocate_row_id, h, List.getLast?_concat]
  · intro tbl s1 s2 s3 s4 ka kb p1 p2 a b v1 v2 r1 r2
    intro hka hkb hne hab ha0 hb0 hp1 hp2 hv1 hv2 hf1 hf2 hp12 hs1 hs2 hs3 hs4
    have e1 := delete_pk_ok tbl ka a hka
    have h1idx : s1.pk_index = dictPop tbl.pk_index ka := by rw [hs1, e1]
    have h1sch : s1.schema = tbl.schema := by rw [hs1, e1]
    have h1del : s1.metadata.deleted_ids = tbl.metadata.deleted_ids ++ [a] := by rw [hs1, e1]
    have h1auto : s1.metadata.auto_id = tbl.metadata.auto_id := by rw [hs1, e1]
    have hkb1 : s1.pk_index.lookup kb = some b := by
      rw [h1idx]
      exact (lookup_dictPop_ne tbl.pk_index ka kb hne).trans hkb
    have e2 := delete_pk_ok s1 kb b hkb1
    have h2idx : s2.pk_index = dictPop (dictPop tbl.pk_index ka) kb := by
      rw [hs2, e2, h1idx]
    have h2sch : s2.schema = tbl.schema := by rw [hs2, e2, h1sch]
    have h2del : s2.metadata.deleted_ids = (tbl.metadata.deleted_ids ++ [a]) ++ [b] := by
      rw [hs2, e2, h1del]
    have h2auto : s2.metadata.auto_id = tbl.metadata.auto_id := by rw [hs2, e2, h1auto]
    -- the first insert reuses b, the most recently deleted id
    have hfresh1 : s2.pk_index.lookup p1 = none := by
      rw [h2idx]
      exact lookup_dictPop_of_none _ kb p1 (lookup_dictPop_of_none _ ka p1 hf1)
    have hins1 := insert_reused_ok s2 v1 p1 r1 (tbl.metadata.deleted_ids ++ [a]) b
      (by rw [h2sch]; exact hp1) (by rw [h2sch]; exact hv1) hfresh1 h2del
    have hnotb : b ∉ tbl.metadata.deleted_ids ++ [a] := by
      intro hmem
      rcases List.mem_append.mp hmem with h | h
      · exact hb0 h
      · simp at h; exact hab h.symm
    have h3idx : s3.pk_index = dictUpd s2.pk_index p1 b := by rw [hs3, hins1]
    have h3sch : s3.schema = tbl.schema := by rw [hs3, hins1, h2sch]
    have h3auto : s3.metadata.auto_id = tbl.metadata.auto_id := by rw [hs3, hins1, h2auto]
    have h3del : s3.metadata.deleted_ids = tbl.metadata.deleted_ids ++ [a] := by
      rw [hs3, hins1]
      exact filter_ne_concat _ b hnotb
    -- the second insert reuses a
    have hfr2 : s2.pk_index.lookup p2 = none := by
      rw [h2idx]
      exact lookup_dictPop_of_none _ kb p2 (lookup_dictPop_of_none _ ka p2 hf2)
    have hfresh2 : s3.pk_index.lookup p2 = none := by
      rw [h3idx]
      exact lookup_dictUpd_of_none _ p1 p2 b hp12 hfr2
    have hins2 := insert_reused_ok s3 v2 p2 r2 tbl.metadata.deleted_ids a
      (by rw [h3sch]; exact hp2) (by rw [h3sch]; exact hv2) hfresh2 h3del
    refine ⟨by rw [hins1], ?_, by rw [hins2], ?_, ?_⟩
    · rw [hs3, hins1]
      exact lookup_dictUpd_self _ _ _
    · rw [hs4, hins2]
      exact lookup_dictUpd_self _ _ _
    · rw [hs4, hins2, h3auto]

/-- Claim C2 witness scenario: table with live rows `x ↦ 0` and `y ↦ 1`. -/
def c2tbl : Table :=
  { schema := ⟨[(pstr "id", DType.str)], pstr "id"⟩
    metadata := ⟨1, []⟩
    pk_index := [(pstr "x", 0), (pstr "y", 1)]
    pages := [(0, [[pstr "x"], [pstr "y"]])] }

/-- State after deleting primary key `x` (row id 0). -/
def c2s1 : Table := (delete c2tbl c2tbl.schema.primary_key (pstr "x")).1

/-- State after then deleting primary key `y` (row id 1). -/
def c2s2 : Table := (delete c2s1 c2s1.schema.primary_key (pstr "y")).1

/-- State after the first subsequent insert (`u`). -/
def c2s3 : Table := (insert c2s2 [(pstr "id", pstr "u")] true).1

/-- State after the second subsequent insert (`w`). -/
def c2s4 : Table := (insert c2s3 [(pstr "id", pstr "w")] true).1

/-- Claim C2 witness: deleting ids 0 then 1 and inserting twice reuses id 1
first and id 0 second, leaving `auto_id` untouched. -/
theorem c2_witness :
    (insert c2s2 [(pstr "id", pstr "u")] true).2 = .ok () ∧
    c2s3.pk_index.lookup (pstr "u") = some 1 ∧
    (insert c2s3 [(pstr "id", pstr "w")] true).2 = .ok () ∧
    c2s4.pk_index.lookup (pstr "w") = some 0 ∧
    c2s4.metadata.auto_id = c2tbl.metadata.auto_id :=
  c2_free_id_reuse_lifo.2.2 c2tbl c2s1 c2s2 c2s3 c2s4 (pstr "x") (pstr "y") (pstr "u") (pstr "w")
    0 1 [(pstr "id", pstr "u")] [(pstr "id", pstr "w")] [pstr "u"] [pstr "w"]
    (by decide) (by decide) (by decide) (by decide) (by decide) (by decide)
    (by decide) (by decide) (by decide) (by decide) (by decide) (by decide) (by decide)
    rfl rfl rfl rfl

theorem set_replicate_last {α : Type} (n : Nat) (a b : α) :
    (List.replicate (n + 1) a).set n b = List.replicate n a ++ [b] := by
  induction n with
  | zero => rfl
  | succ n ih =>
    rw [List.replicate_succ a (n + 1)]
    simp only [List.set]
    rw [ih, List.replicate_succ]
    rfl

/-- One insert of the single-column row whose value is the decimal rendering
of `i`, used to drive the 65-insert page-boundary scenario. -/
def insertIdRow (t : Table) (i : Nat) : Table := (insert t [(pstr "id", intStr i)] true).1

/-- A fresh one-`str`-column table after `n` successive inserts with distinct
primary keys `"0", "1", ...`. -/
def tblAfter (n : Nat) : Table :=
  (List.range n).foldl insertIdRow (create_table [(pstr "id", DType.str)] (pstr "id"))

set_option maxRecDepth 100000 in
/-- Claim C3: every row write lands in page file `row_id >> 6` at slot
`row_id mod 64`; page files are created on demand with slots below the
written position padded by empty rows; and 65 inserts into a fresh table
create a second page file with the 65th row (id 64) at page 1, slot 0. -/
theorem c3_page_addressing :
    (∀ (ps : Pages) (row_id : Nat) (row : List Str),
      ∃ rows, (update_csv_file ps row_id row).lookup (row_id >>> 6) = some rows ∧
        rows[row_id % 64]? = some row ∧
        (ps.lookup (row_id >>> 6) = none →
          rows = List.replicate (row_id % 64) [] ++ [row])) ∧
    (tblAfter 64).pages.length = 1 ∧
    (tblAfter 65).pages.length = 2 ∧
    (tblAfter 65).pages.lookup 1 = some [[pstr "64"]] ∧
    get_file_number 64 = 1 ∧ get_row_position 64 = 0 := by
  refine ⟨?_, by decide, by decide, by decide, by decide, by decide⟩
  intro ps row_id row
  set pos := get_row_position row_id with hposd
  set rows0 := (ps.lookup (get_file_number row_id)).getD [] with hr0
  set padded :=
    (if rows0.length ≤ pos then rows0 ++ List.replicate (pos + 1 - rows0.length) [] else rows0)
    with hpad
  have hu : update_csv_file ps row_id row
      = dictUpd ps (get_file_number row_id) (padded.set pos row) := rfl
  have hlen : pos < padded.length := by
    rw [hpad]
    split
    · rename_i h
      rw [List.length_append, List.length_replicate]
      omega
    · rename_i h
      omega
  refine ⟨padded.set pos row, ?_, ?_, ?_⟩
  · rw [hu]
    exact lookup_dictUpd_self _ _ _
  · exact List.getElem?_set_self hlen
  · intro hnone
    have hnone2 : List.lookup (get_file_number row_id) ps = none := hnone
    have h0 : rows0 = [] := by rw [hr0, hnone2]; rfl
    rw [hpad, h0]
    simp only [List.nil_append, List.length_nil, Nat.zero_le, if_true]
    have : pos + 1 - 0 = pos + 1 := by omega
    rw [this]
    exact set_replicate_last pos [] row

/-- Claim C3 witness: writing row id 70 into an empty page map creates page
file 1 and pads slots 0–5 with empty rows before slot 6. -/
theorem c3_witness :
    ∃ rows, (update_csv_file [] 70 [pstr "z"]).lookup (70 >>> 6) = some rows ∧
      rows[70 % 64]? = some [pstr "z"] ∧
      (([] : Pages).lookup (70 >>> 6) = none →
        rows = List.replicate (70 % 64) [] ++ [[pstr "z"]]) :=
  c3_page_addressing.1 [] 70 [pstr "z"]

theorem lookup_dictPop_self {κ β : Type} [BEq κ] [LawfulBEq κ] (m : List (κ × β)) (k : κ) :
    (dictPop m k).lookup k = none := by
  induction m with
  | nil => simp [dictPop]
  | cons p m ih =>
    obtain ⟨a, b⟩ := p
    simp only [dictPop] at ih ⊢
    by_cases hp : a = k
    · have hk : (a == k) = true := beq_iff_eq.mpr hp
      simp [List.filter_cons, hk, ih]
    · have hk : (a == k) = false := beq_eq_false_iff_ne.mpr hp
      have h1 : (k == a) = false := beq_eq_false_iff_ne.mpr (fun e => hp e.symm)
      simp [List.filter_cons, hk, List.lookup_cons, h1, ih]

/-- Claim C8: an insert whose page-file write fails (modelled by
`write_ok = false`) has its exception swallowed by the bare
`except Exception` handler — after compensating a newly allocated `auto_id`
the function falls through and returns normally (`.ok ()`), with the on-disk
state exactly as before the call. The spec requires the failure to be
surfaced to the caller; the code never re-raises. -/
theorem c8_insert_swallows_write_failure
    (tbl : Table) (values : List (Str × Str)) (row_data : List Str) (pkv : Str)
    (hprep : prepare_row_data tbl.schema values = .ok row_data)
    (hpk : values.lookup tbl.schema.primary_key = some pkv)
    (hfresh : tbl.pk_index.lookup pkv = none) :
    insert tbl values false = (tbl, .ok ()) := by
  unfold insert
  rw [hprep, hpk]
  simp only [hfresh, Option.isSome_none, Bool.false_eq_true, if_false]
  cases hd : tbl.metadata.deleted_ids.getLast? with
  | none => simp [allocate_row_id, hd, Int.add_sub_cancel]
  | some i => simp [allocate_row_id, hd]

/-- Claim C8 witness table: one live row `x ↦ 0`. -/
def c8tbl : Table :=
  { schema := ⟨[(pstr "id", DType.str)], pstr "id"⟩
    metadata := ⟨0, []⟩
    pk_index := [(pstr "x", 0)]
    pages := [(0, [[pstr "x"]])] }

/-- Claim C8 witness: a concrete failed-write insert that returns `.ok ()`. -/
theorem c8_witness : insert c8tbl [(pstr "id", pstr "z")] false = (c8tbl, .ok ()) :=
  c8_insert_swallows_write_failure c8tbl [(pstr "id", pstr "z")] [pstr "z"] (pstr "z")
    (by decide) (by decide) (by decide)

/-- Claim C9: a primary-key re-keying update whose row-data preparation then
fails (unconvertible value or missing schema column) raises after the
primary-key index has already been rewritten and persisted: the returned
state maps the new key to the row id, no longer contains the old key, and
leaves every page file untouched — index and stored row disagree, with no
rollback. -/
theorem c9_update_rekey_not_atomic
    (tbl : Table) (cval newpk : Str) (ty : DType) (row_id : Nat)
    (values : List (Str × Str)) (e : DBError)
    (hcol : tbl.schema.columns.lookup tbl.schema.primary_key = some ty)
    (hcv : tbl.pk_index.lookup cval = some row_id)
    (hnv : values.lookup tbl.schema.primary_key = some newpk)
    (hne : newpk ≠ cval)
    (hfresh : tbl.pk_index.lookup newpk = none)
    (hprep : prepare_row_data tbl.schema values = .error e) :
    update tbl tbl.schema.primary_key cval values
        = ({ tbl with pk_index := dictUpd (dictPop tbl.pk_index cval) newpk row_id }, .error e) ∧
    (dictUpd (dictPop tbl.pk_index cval) newpk row_id).lookup newpk = some row_id ∧
    (dictUpd (dictPop tbl.pk_index cval) newpk row_id).lookup cval = none := by
  refine ⟨?_, lookup_dictUpd_self _ _ _, ?_⟩
  · unfold update
    rw [hcol, hcv, hnv]
    simp [hne, hfresh, hprep]
  · rw [lookup_dictUpd_ne _ _ _ _ (fun h => hne h.symm)]
    exact lookup_dictPop_self _ _

/-- Claim C9 witness table: live rows `a ↦ 0` and `c ↦ 1`. -/
def c9tbl : Table :=
  { schema := ⟨[(pstr "id", DType.str), (pstr "age", DType.int)], pstr "id"⟩
    metadata := ⟨1, []⟩
    pk_index := [(pstr "a", 0), (pstr "c", 1)]
    pages := [(0, [[pstr "a", pstr "30"], [pstr "c", pstr "40"]])] }

/-- Claim C9 witness: the re-key-then-fail update at a concrete table — the
index now maps `b` to row 0 and has dropped `a`, pages untouched, error
raised. -/
theorem c9_witness :
    update c9tbl c9tbl.schema.primary_key (pstr "a") [(pstr "id", pstr "b"), (pstr "age", pstr "xx")]
        = ({ c9tbl with pk_index := dictUpd (dictPop c9tbl.pk_index (pstr "a")) (pstr "b") 0 },
           .error (.typeConversionError (pstr "xx") DType.int)) ∧
    (dictUpd (dictPop c9tbl.pk_index (pstr "a")) (pstr "b") 0).lookup (pstr "b") = some 0 ∧
    (dictUpd (dictPop c9tbl.pk_index (pstr "a")) (pstr "b") 0).lookup (pstr "a") = none :=
  c9_update_rekey_not_atomic c9tbl (pstr "a") (pstr "b") DType.str 0
    [(pstr "id", pstr "b"), (pstr "age", pstr "xx")] (.typeConversionError (pstr "xx") DType.int)
    (by decide) (by decide) (by decide) (by decide) (by decide) (by decide)

/-! ### Condition evaluator (nested-form leaf) -/

/-- Python `s.strip('()')`: remove every leading and trailing `(` or `)`. -/
def stripParens (cs : Str) : Str :=
  ((cs.dropWhile (fun c => c == '(' || c == ')')).reverse.dropWhile
    (fun c => c == '(' || c == ')')).reverse

/-- Numeric view of a Python value (`bool` is an `int` subclass: `True` is 1). -/
def pyNumD : Value → Option Dec
  | .vInt n => some (Dec.fromInt n)
  | .vFloat d => some d
  | .vBool b => some (Dec.fromInt (if b then 1 else 0))
  | .vStr _ => none

/-- Python order comparison of a typed field value against an `int` literal
(`item[field] > int(value)` and friends): numbers compare numerically, a
`str` operand raises `TypeError`. -/
def pyCmpInt (f : Dec → Dec → Bool) (v : Value) (n : Int) : Except DBError Bool :=
  match pyNumD v with
  | some d => .ok (f d (Dec.fromInt n))
  | none => .error .pyTypeError

theorem fromInt_leB (a b : Int) : Dec.leB (Dec.fromInt a) (Dec.fromInt b) = decide (a ≤ b) := by
  unfold Dec.leB Dec.fromInt
  exact decide_eq_decide.mpr (by simp)

theorem fromInt_ltB (a b : Int) : Dec.ltB (Dec.fromInt a) (Dec.fromInt b) = decide (a < b) := by
  unfold Dec.ltB Dec.fromInt
  exact decide_eq_decide.mpr (by simp)

/-- `evaluate_condition(item, condition)`: the nested-form 3-token leaf.
Parentheses are stripped from field and literal; `>`/`<` compare the field
value against `int(value)` — unless the literal contains `=`, in which case
its first character is dropped and the or-equal comparison is used; `==`
compares `str(item[field])` with the literal textually; any other operator
raises `Unsupported operator`. -/
def evaluate_condition (item : List (Str × Value)) (cond : Str × Str × Str) :
    Except DBError Bool :=
  let field := stripParens cond.1
  let op := cond.2.1
  let value := stripParens cond.2.2
  if op = pstr ">" then
    if value.contains '=' then do
      let v ← dictGet item field
      match pyIntParse (value.drop 1) with
      | some n => pyCmpInt (fun a b => Dec.leB b a) v n
      | none => .error (.typeConversionError (value.drop 1) .int)
    else do
      let v ← dictGet item field
      match pyIntParse value with
      | some n => pyCmpInt (fun a b => Dec.ltB b a) v n
      | none => .error (.typeConversionError value .int)
  else if op = pstr "<" then
    if value.contains '=' then do
      let v ← dictGet item field
      match pyIntParse (value.drop 1) with
      | some n => pyCmpInt (fun a b => Dec.leB a b) v n
      | none => .error (.typeConversionError (value.drop 1) .int)
    else do
      let v ← dictGet item field
      match pyIntParse value with
      | some n => pyCmpInt (fun a b => Dec.ltB a b) v n
      | none => .error (.typeConversionError value .int)
  else if op = pstr "==" then do
    let v ← dictGet item field
    .ok (decide (pyStr v = value))
  else
    .error (.unsupportedOperator op)

/-- Claim C6 counterexample: with a field value of 5 and the condition
`("age", ">", "5=")` — an `=` appended to the literal as a suffix, as the
claim reads — the code drops the literal's FIRST character and feeds `=` to
`int()`, raising a conversion error instead of evaluating `5 >= 5`. The
or-equal marker the code accepts is an `=` prefix (`"=5"`), produced by the
tokenizer splitting `>=`. -/
theorem c6_counterexample :
    evaluate_condition [(pstr "age", .vInt 5)] (pstr "age", pstr ">", pstr "5=")
      = .error (.typeConversionError (pstr "=") DType.int) ∧
    evaluate_condition [(pstr "age", .vInt 5)] (pstr "age", pstr ">", pstr "=5")
      = .ok true :=
  ⟨by decide, by decide⟩

/-- Claim C6 (amended): in a nested-form leaf, `>`/`<` compare the field's
value with the literal parsed as an integer, a bare `=` PREFIX prepended to
the literal denotes the or-equal variant, `==` compares `str(field value)`
with the literal as text, and any other operator fails with
`UnsupportedOperator`. -/
theorem c6_leaf_semantics :
    (∀ (item : List (Str × Value)) (f vs : Str) (m n : Int) (rest : Str),
      item.lookup (stripParens f) = some (.vInt m) →
      stripParens vs = '=' :: rest →
      pyIntParse rest = some n →
      evaluate_condition item (f, pstr ">", vs) = .ok (decide (m ≥ n)) ∧
      evaluate_condition item (f, pstr "<", vs) = .ok (decide (m ≤ n))) ∧
    (∀ (item : List (Str × Value)) (f vs : Str) (m n : Int),
      item.lookup (stripParens f) = some (.vInt m) →
      (stripParens vs).contains '=' = false →
      pyIntParse (stripParens vs) = some n →
      evaluate_condition item (f, pstr ">", vs) = .ok (decide (m > n)) ∧
      evaluate_condition item (f, pstr "<", vs) = .ok (decide (m < n))) ∧
    (∀ (item : List (Str × Value)) (f vs : Str) (v : Value),
      item.lookup (stripParens f) = some v →
      evaluate_condition item (f, pstr "==", vs) = .ok (decide (pyStr v = stripParens vs))) ∧
    (∀ (item : List (Str × Value)) (f vs op : Str),
      op ≠ pstr ">" → op ≠ pstr "<" → op ≠ pstr "==" →
      evaluate_condition item (f, op, vs) = .error (.unsupportedOperator op)) := by
  refine ⟨?_, ?_, ?_, ?_⟩
  · intro item f vs m n rest hf hv hn
    have hc : (stripParens vs).contains '=' = true := by
      rw [hv]; simp [List.contains_cons]
    have hd : (stripParens vs).drop 1 = rest := by rw [hv]; rfl
    constructor
    · simp only [evaluate_condition, if_pos rfl, hc, if_true, dictGet, hf, hd, hn,
        pyCmpInt, pyNumD]
      have hcast : Dec.leB (Dec.fromInt n) (Dec.fromInt m) = decide (m ≥ n) :=
        (fromInt_leB n m).trans (decide_eq_decide.mpr (ge_iff_le).symm)
      rw [← hcast]
      rfl
    · have hlt : (pstr "<") ≠ (pstr ">") := by decide
      simp only [evaluate_condition, if_neg hlt, if_pos rfl, hc, if_true, dictGet, hf, hd, hn,
        pyCmpInt, pyNumD]
      have hcast : Dec.leB (Dec.fromInt m) (Dec.fromInt n) = decide (m ≤ n) :=
        fromInt_leB m n
      rw [← hcast]
      rfl
  · intro item f vs m n hf hc hn
    constructor
    · simp only [evaluate_condition, if_pos rfl, hc, Bool.false_eq_true, if_false, dictGet,
        hf, hn, pyCmpInt, pyNumD]
      have hcast : Dec.ltB (Dec.fromInt n) (Dec.fromInt m) = decide (m > n) :=
        (fromInt_ltB n m).trans (decide_eq_decide.mpr (gt_iff_lt).symm)
      rw [← hcast]
      rfl
    · have hlt : (pstr "<") ≠ (pstr ">") := by decide
      simp only [evaluate_condition, if_neg hlt, if_pos rfl, hc, Bool.false_eq_true, if_false,
        dictGet, hf, hn, pyCmpInt, pyNumD]
      have hcast : Dec.ltB (Dec.fromInt m) (Dec.fromInt n) = decide (m < n) :=
        fromInt_ltB m n
      rw [← hcast]
      rfl
  · intro item f vs v hf
    have h1 : (pstr "==") ≠ (pstr ">") := by decide
    have h2 : (pstr "==") ≠ (pstr "<") := by decide
    simp only [evaluate_condition, if_neg h1, if_neg h2, if_pos rfl, if_true, dictGet, hf]
    rfl
  · intro item f vs op h1 h2 h3
    simp only [evaluate_condition, if_neg h1, if_neg h2, if_neg h3]

/-- Claim C6 witness: the amended semantics applied to concrete leaves. -/
theorem c6_witness :
    evaluate_condition [(pstr "age", .vInt 5)] (pstr "age", pstr "<", pstr "=5")
      = .ok (decide ((5 : Int) ≤ 5)) :=
  (c6_leaf_semantics.1 [(pstr "age", .vInt 5)] (pstr "age") (pstr "=5") 5 5 (pstr "5")
    (by decide) (by decide) (by decide)).2

/-! ### External merge sorter (`merge` / `merge_two`) -/

/-- A record of a run file as `csv.DictReader` hands it back: the textual
fields in header order. The ordering column sits at a fixed index. -/
abbrev Rec := List Str

/-- `row[col]` of a run-file record: the ordering column's textual value. -/
def keyOf (col : Nat) (r : Rec) : Str := r.getD col []

/-- Python `<` on str: lexicographic comparison by code point. -/
def strLtB (a b : Str) : Bool := decide (a < b)

/-- The comparison `merge_two` performs on the two runs' next records:
`row1[col] < row2[col]` for ascending order, `row1[col] > row2[col]` for
descending. -/
def mergeCond (asc : Bool) (col : Nat) (x y : Rec) : Bool :=
  if asc then strLtB (keyOf col x) (keyOf col y) else strLtB (keyOf col y) (keyOf col x)

/-- The loop body of `merge_two`, with an explicit step budget so the
recursion is structural (the budget `xs.length + ys.length` always
suffices; the 0-budget fallback is unreachable then). -/
def mergeTwoF (asc : Bool) (col : Nat) : Nat → List Rec → List Rec → List Rec
  | _, [], ys => ys
  | _, x :: xs, [] => x :: xs
  | 0, x :: xs, y :: ys => x :: xs ++ y :: ys
  | fuel + 1, x :: xs, y :: ys =>
    if mergeCond asc col x y
    then x :: mergeTwoF asc col fuel xs (y :: ys)
    else y :: mergeTwoF asc col fuel (x :: xs) ys

/-- The streaming two-pointer merge of `merge_two`: while records remain,
write the record the comparison prefers (run 2's on ties or when run 1 is
exhausted), advancing that run's pointer. -/
def mergeTwo (asc : Bool) (col : Nat) (xs ys : List Rec) : List Rec :=
  mergeTwoF asc col (xs.length + ys.length) xs ys

/-- One pass of `merge`: merge adjacent pairs of run files; an odd run out
carries over unmerged. -/
def mergePass (asc : Bool) (col : Nat) : List (List Rec) → List (List Rec)
  | f1 :: f2 :: rest => mergeTwo asc col f1 f2 :: mergePass asc col rest
  | l => l

/-- The record order the merged output respects: key text ascending for
`ASC`, descending for `DESC`. -/
def keyLe (asc : Bool) (col : Nat) (a b : Rec) : Prop :=
  if asc then keyOf col a ≤ keyOf col b else keyOf col b ≤ keyOf col a

instance keyLeDec (asc : Bool) (col : Nat) : DecidableRel (keyLe asc col) := fun a b => by
  unfold keyLe
  split <;> infer_instance

theorem keyLe_trans (asc : Bool) (col : Nat) {a b c : Rec}
    (h1 : keyLe asc col a b) (h2 : keyLe asc col b c) : keyLe asc col a c := by
  cases asc <;> simp only [keyLe, if_true, if_false] at h1 h2 ⊢ <;>
    [exact le_trans h2 h1; exact le_trans h1 h2]

theorem mergeCond_true_le (asc : Bool) (col : Nat) {x y : Rec}
    (h : mergeCond asc col x y = true) : keyLe asc col x y := by
  cases asc
  · simp only [mergeCond, strLtB] at h
    simp only [keyLe]
    simp at h ⊢
    exact le_of_lt h
  · simp only [mergeCond, strLtB] at h
    simp only [keyLe]
    simp at h ⊢
    exact le_of_lt h

theorem mergeCond_false_le (asc : Bool) (col : Nat) {x y : Rec}
    (h : mergeCond asc col x y = false) : keyLe asc col y x := by
  cases asc
  · simp only [mergeCond, strLtB] at h
    simp only [keyLe]
    simp at h ⊢
    exact h
  · simp only [mergeCond, strLtB] at h
    simp only [keyLe]
    simp at h ⊢
    exact h

theorem mergeTwoF_perm (asc : Bool) (col : Nat) :
    ∀ (fuel : Nat) (xs ys : List Rec), xs.length + ys.length ≤ fuel →
      (mergeTwoF asc col fuel xs ys).Perm (xs ++ ys) := by
  intro fuel
  induction fuel with
  | zero =>
    intro xs ys h
    match xs, ys with
    | [], ys => simp [mergeTwoF]
    | x :: xs, [] => simp [mergeTwoF]
    | x :: xs, y :: ys => simp at h
  | succ fuel ih =>
    intro xs ys h
    match xs, ys with
    | [], ys => simp [mergeTwoF]
    | x :: xs, [] => simp [mergeTwoF]
    | x :: xs, y :: ys =>
      rw [mergeTwoF]
      split
      · exact (ih xs (y :: ys) (by simp at h ⊢; omega)).cons x
      · exact ((ih (x :: xs) ys (by simp at h ⊢; omega)).cons y).trans List.perm_middle.symm

theorem mergeTwo_perm (asc : Bool) (col : Nat) (xs ys : List Rec) :
    (mergeTwo asc col xs ys).Perm (xs ++ ys) :=
  mergeTwoF_perm asc col _ xs ys le_rfl

theorem mergeTwoF_sorted (asc : Bool) (col : Nat) :
    ∀ (fuel : Nat) (xs ys : List Rec), xs.length + ys.length ≤ fuel →
      xs.Sorted (keyLe asc col) → ys.Sorted (keyLe asc col) →
      (mergeTwoF asc col fuel xs ys).Sorted (keyLe asc col) := by
  intro fuel
  induction fuel with
  | zero =>
    intro xs ys h hxs hys
    match xs, ys with
    | [], ys => simpa [mergeTwoF] using hys
    | x :: xs, [] => simpa [mergeTwoF] using hxs
    | x :: xs, y :: ys => simp at h
  | succ fuel ih =>
    intro xs ys h hxs hys
    match xs, ys with
    | [], ys => simpa [mergeTwoF] using hys
    | x :: xs, [] => simpa [mergeTwoF] using hxs
    | x :: xs, y :: ys =>
      rw [List.sorted_cons] at hxs hys
      rw [mergeTwoF]
      split
      · rename_i hcond
        rw [List.sorted_cons]
        refine ⟨?_, ih xs (y :: ys) (by simp at h ⊢; omega) hxs.2 (List.sorted_cons.mpr hys)⟩
        intro z hz
        have hz2 := (mergeTwoF_perm asc col fuel xs (y :: ys) (by simp at h ⊢; omega)).subset hz
        rcases List.mem_append.mp hz2 with h1 | h1
        · exact hxs.1 z h1
        · rcases List.mem_cons.mp h1 with h1 | h1
          · exact h1 ▸ mergeCond_true_le asc col hcond
          · exact keyLe_trans asc col (mergeCond_true_le asc col hcond) (hys.1 z h1)
      · rename_i hcond
        have hyx : keyLe asc col y x := mergeCond_false_le asc col (by simpa using hcond)
        rw [List.sorted_cons]
        refine ⟨?_, ih (x :: xs) ys (by simp at h ⊢; omega) (List.sorted_cons.mpr hxs) hys.2⟩
        intro z hz
        have hz2 := (mergeTwoF_perm asc col fuel (x :: xs) ys (by simp at h ⊢; omega)).subset hz
        rcases List.mem_append.mp hz2 with h1 | h1
        · rcases List.mem_cons.mp h1 with h1 | h1
          · exact h1 ▸ hyx
          · exact keyLe_trans asc col hyx (hxs.1 z h1)
        · exact hys.1 z h1

theorem mergeTwo_sorted (asc : Bool) (col : Nat) (xs ys : List Rec)
    (hxs : xs.Sorted (keyLe asc col)) (hys : ys.Sorted (keyLe asc col)) :
    (mergeTwo asc col xs ys).Sorted (keyLe asc col) :=
  mergeTwoF_sorted asc col _ xs ys le_rfl hxs hys

theorem mergePass_length (asc : Bool) (col : Nat) :
    ∀ l : List (List Rec), (mergePass asc col l).length = (l.length + 1) / 2
  | [] => by simp [mergePass]
  | [f] => by simp [mergePass]
  | f1 :: f2 :: rest => by
    rw [mergePass]
    simp only [List.length_cons, mergePass_length asc col rest]
    omega

theorem mergePass_flatten_perm (asc : Bool) (col : Nat) :
    ∀ l : List (List Rec), (mergePass asc col l).flatten.Perm l.flatten
  | [] => by simp [mergePass]
  | [f] => by simp [mergePass]
  | f1 :: f2 :: rest => by
    rw [mergePass]
    simp only [List.flatten_cons]
    have h1 := (mergeTwo_perm asc col f1 f2).append (mergePass_flatten_perm asc col rest)
    rw [List.append_assoc] at h1
    exact h1

theorem mergePass_sorted (asc : Bool) (col : Nat) :
    ∀ l : List (List Rec), (∀ r ∈ l, r.Sorted (keyLe asc col)) →
      ∀ r ∈ mergePass asc col l, r.Sorted (keyLe asc col)
  | [], _ => by simp [mergePass]
  | [f], h => by simpa [mergePass] using h
  | f1 :: f2 :: rest, h => by
    rw [mergePass]
    intro r hr
    rcases List.mem_cons.mp hr with h1 | h1
    · subst h1
      exact mergeTwo_sorted asc col f1 f2 (h f1 (by simp)) (h f2 (by simp))
    · exact mergePass_sorted asc col rest (fun r hr => h r (by simp [hr])) r h1

/-- The pass loop of `merge` with an explicit pass budget (the initial run
count always suffices): repeat `mergePass` while more than one run file
remains; the last remaining file is the output (`none` models the
`IndexError` crash on an empty input list). -/
def mergeAllF (asc : Bool) (col : Nat) : Nat → List (List Rec) → Option (List Rec)
  | 0, fs => fs.head?
  | fuel + 1, fs =>
    if fs.length ≤ 1 then fs.head?
    else mergeAllF asc col fuel (mergePass asc col fs)

/-- The pass loop of `merge`: repeat `mergePass` while more than one run file
remains; the last remaining file is the output. -/
def mergeAll (asc : Bool) (col : Nat) (fs : List (List Rec)) : Option (List Rec) :=
  mergeAllF asc col fs.length fs

theorem mergeAllF_spec (asc : Bool) (col : Nat) :
    ∀ (fuel : Nat) (fs : List (List Rec)), fs.length ≤ fuel + 1 → fs ≠ [] →
      (∀ r ∈ fs, r.Sorted (keyLe asc col)) →
      ∃ out, mergeAllF asc col fuel fs = some out ∧ out.Perm fs.flatten ∧
        out.Sorted (keyLe asc col) := by
  intro fuel
  induction fuel with
  | zero =>
    intro fs hlen hne hs
    match fs, hne with
    | [f], _ => exact ⟨f, rfl, by simp, hs f (by simp)⟩
    | f :: g :: rest, _ => simp at hlen
  | succ fuel ih =>
    intro fs hlen hne hs
    by_cases h : fs.length ≤ 1
    · match fs, hne with
      | [f], _ => exact ⟨f, by rw [mergeAllF]; simp, by simp, hs f (by simp)⟩
    · have hne2 : mergePass asc col fs ≠ [] := by
        intro e
        have := mergePass_length asc col fs
        rw [e] at this
        simp at this
        omega
      have hlen2 : (mergePass asc col fs).length ≤ fuel + 1 := by
        rw [mergePass_length]
        omega
      obtain ⟨out, ho, hp, hsorted⟩ :=
        ih (mergePass asc col fs) hlen2 hne2 (mergePass_sorted asc col fs hs)
      refine ⟨out, ?_, hp.trans (mergePass_flatten_perm asc col fs), hsorted⟩
      rw [mergeAllF, if_neg h]
      exact ho

theorem mergeAll_spec (asc : Bool) (col : Nat) (fs : List (List Rec)) (hne : fs ≠ [])
    (hs : ∀ r ∈ fs, r.Sorted (keyLe asc col)) :
    ∃ out, mergeAll asc col fs = some out ∧ out.Perm fs.flatten ∧
      out.Sorted (keyLe asc col) :=
  mergeAllF_spec asc col fs.length fs (by omega) hne hs

/-- Claim C4: the external merge sorter repeatedly merges adjacent pairs of
runs (an odd run out carries over unmerged), each pairwise merge being the
streaming two-pointer merge that compares the ordering column's textual
value as read back from the run file; for any nonempty list of runs each
sorted under the key and direction, the single remaining output is a
permutation of the concatenation of all runs' records and is fully sorted
under that key and direction. -/
theorem c4_merge_sorter_correct :
    (∀ (asc : Bool) (col : Nat) (f1 f2 : List Rec) (rest : List (List Rec)),
      mergePass asc col (f1 :: f2 :: rest) = mergeTwo asc col f1 f2 :: mergePass asc col rest) ∧
    (∀ (asc : Bool) (col : Nat) (f : List Rec), mergePass asc col [f] = [f]) ∧
    (∀ (asc : Bool) (col : Nat) (runs : List (List Rec)), runs ≠ [] →
      (∀ r ∈ runs, r.Sorted (keyLe asc col)) →
      ∃ out, mergeAll asc col runs = some out ∧ out.Perm runs.flatten ∧
        out.Sorted (keyLe asc col)) :=
  ⟨fun _ _ _ _ _ => rfl, fun _ _ _ => rfl, mergeAll_spec⟩

/-- Claim C4 witness: three records in two sorted runs merge into the fully
sorted concatenation. -/
theorem c4_witness :
    ∃ out, mergeAll true 0 [[[pstr "a"], [pstr "c"]], [[pstr "b"]]] = some out ∧
      out.Perm ([[[pstr "a"], [pstr "c"]], [[pstr "b"]]] : List (List Rec)).flatten ∧
      out.Sorted (keyLe true 0) :=
  c4_merge_sorter_correct.2.2 true 0 [[[pstr "a"], [pstr "c"]], [[pstr "b"]]]
    (by decide) (by decide)

/-! ### Aggregator (`perform_group_by`) -/

/-- A Python float-valued accumulator entry: a finite value (idealized exact)
or one of `float('-inf')` / `float('inf')`. -/
inductive PyNum where
  | num : Dec → PyNum
  | ninf : PyNum
  | pinf : PyNum
deriving DecidableEq

/-- `+` of an accumulator entry and a finite aggregate value. -/
def pyNumAdd : PyNum → Dec → PyNum
  | .num a, b => .num (a.add b)
  | .ninf, _ => .ninf
  | .pinf, _ => .pinf

/-- Python `max` of an accumulator entry and a finite aggregate value. -/
def pyNumMax : PyNum → Dec → PyNum
  | .num a, b => .num (Dec.maxD a b)
  | .ninf, b => .num b
  | .pinf, _ => .pinf

/-- Python `min` of an accumulator entry and a finite aggregate value. -/
def pyNumMin : PyNum → Dec → PyNum
  | .num a, b => .num (Dec.minD a b)
  | .ninf, _ => .ninf
  | .pinf, b => .num b

/-- One group's accumulator, as the `defaultdict` default initializes it:
`{"SUM": 0, "COUNT": 0, "MAX": float('-inf'), "MIN": float('inf')}`. -/
structure Acc where
  sum : PyNum
  count : PyNum
  max : PyNum
  min : PyNum
deriving DecidableEq

/-- The lazy default accumulator. -/
def acc0 : Acc := ⟨.num (Dec.fromInt 0), .num (Dec.fromInt 0), .ninf, .pinf⟩

/-- Python truthiness of a converted field value. -/
def truthy : Value → Bool
  | .vInt n => decide (n ≠ 0)
  | .vFloat d => decide (d.man ≠ 0)
  | .vBool b => b
  | .vStr s => decide (s ≠ [])

/-- Python `float(v)` on an already-converted field value; for strings,
decimal parsing (`none` models the `ValueError` the aggregator catches). -/
def pyFloatOfValue : Value → Option Dec
  | .vInt n => some (Dec.fromInt n)
  | .vFloat d => some d
  | .vBool b => some (Dec.fromInt (if b then 1 else 0))
  | .vStr s => pyFloatParse s

/-- The aggregate value of one row:
`float(row[aggregate_field]) if aggregate_field and row[aggregate_field] else 0`,
with the caught `ValueError` (diagnostic print only) also yielding 0.
A missing aggregate column raises `KeyError`. -/
def aggValue (row : List (Str × Value)) (af : Str) : Except DBError Dec :=
  if af = [] then .ok (Dec.fromInt 0)
  else
    match row.lookup af with
    | none => .error (.keyMissing af)
    | some v =>
      if truthy v then
        match pyFloatOfValue v with
        | some q => .ok q
        | none => .ok (Dec.fromInt 0)
      else .ok (Dec.fromInt 0)

/-- The group key and aggregate value extracted from one row, in the order
the code reads them (`row[group_field]` first, then the aggregate). -/
def rowKeyVal (gf af : Str) (row : List (Str × Value)) : Except DBError (Value × Dec) := do
  let gv ← dictGet row gf
  let av ← aggValue row af
  pure (gv, av)

/-- The per-row accumulator update of `process_chunk`: the `defaultdict`
access inside a recognized branch lazily creates the group's entry; an
unrecognized function name touches nothing. -/
def groupStep (func : Str) (gr : List (Value × Acc)) (gv : Value) (av : Dec) :
    List (Value × Acc) :=
  if func = pstr "MAX" then
    dictUpd gr gv
      (let acc := (gr.lookup gv).getD acc0; { acc with max := pyNumMax acc.max av })
  else if func = pstr "MIN" then
    dictUpd gr gv
      (let acc := (gr.lookup gv).getD acc0; { acc with min := pyNumMin acc.min av })
  else if func = pstr "SUM" then
    dictUpd gr gv
      (let acc := (gr.lookup gv).getD acc0; { acc with sum := pyNumAdd acc.sum av })
  else if func = pstr "COUNT" then
    dictUpd gr gv
      (let acc := (gr.lookup gv).getD acc0; { acc with count := pyNumAdd acc.count (Dec.fromInt 1) })
  else gr

/-- The row loop of `process_chunk` over a chunk. -/
def processRows (func gf af : Str) (gr0 : List (Value × Acc)) :
    List (List (Str × Value)) → Except DBError (List (Value × Acc))
  | [] => .ok gr0
  | row :: rest => do
    let p ← rowKeyVal gf af row
    processRows func gf af (groupStep func gr0 p.1 p.2) rest

/-- `_load_csv_rows_in_a_file`: the rows of one page file that have any
non-empty field, each converted per the schema (`zip` truncates to the
shorter of row and column list). -/
def load_rows (schema : Schema) (rows : List (List Str)) : Except DBError (List (List Value)) :=
  (rows.filter (fun row => row.any (fun f => !(f == ([] : Str))))).mapM
    (fun row => (row.zip (schema.columns.map (fun cd => cd.2))).mapM
      (fun p => check_datatype p.1 p.2))

/-- `get_table_data`'s page count: `auto_id // 64 + 1` with Python floor
division. -/
def no_of_files (tbl : Table) : Int := Int.fdiv tbl.metadata.auto_id 64 + 1

/-- Opening page file `i` (`FileNotFound` if it does not exist). -/
def read_page (tbl : Table) (i : Nat) : Except DBError (List (List Str)) :=
  match tbl.pages.lookup i with
  | some rows => .ok rows
  | none => .error (.fileNotFound i)

/-- The page files a full-table pass visits: `range(no_of_files)`. -/
def scanPages (tbl : Table) : List Nat := List.range (no_of_files tbl).toNat

/-- The single pass of `perform_group_by` over all pages, threading the
`group_results` map. -/
def groupPass (tbl : Table) (gf func af : Str) : Except DBError (List (Value × Acc)) :=
  (scanPages tbl).foldlM
    (fun gr i => do
      let rows ← read_page tbl i
      let loaded ← load_rows tbl.schema rows
      processRows func gf af gr
        (loaded.map (fun r => (tbl.schema.columns.map (fun cd => cd.1)).zip r)))
    []

/-- `values[aggregate_func]` on a finished accumulator (`KeyError` for an
unrecognized function — unreachable, since then no group is ever created). -/
def accGet (acc : Acc) (func : Str) : Except DBError PyNum :=
  if func = pstr "MAX" then .ok acc.max
  else if func = pstr "MIN" then .ok acc.min
  else if func = pstr "SUM" then .ok acc.sum
  else if func = pstr "COUNT" then .ok acc.count
  else .error (.keyMissing func)

/-- `perform_group_by(filename, group_field, aggregate_func, aggregate_field)`:
single pass over all pages, one `(group_value, aggregate_result)` pair per
distinct group in first-seen order. -/
def perform_group_by (tbl : Table) (gf func af : Str) :
    Except DBError (List Str × List (Value × PyNum)) := do
  let gr ← groupPass tbl gf func af
  let ret ← gr.mapM (fun p => do
    let v ← accGet p.2 func
    pure (p.1, v))
  pure ([gf, func], ret)

theorem fst_map_replace {κ β : Type} [BEq κ] [LawfulBEq κ] (m : List (κ × β)) (k : κ) (v : β) :
    ((m.map fun p => if p.1 == k then (k, v) else p).map Prod.fst) = m.map Prod.fst := by
  induction m with
  | nil => simp
  | cons p rest ih =>
    obtain ⟨a, b⟩ := p
    by_cases hp : a = k
    · subst hp
      simp [ih]
    · have hb : (a == k) = false := beq_eq_false_iff_ne.mpr hp
      simp [hb, ih]

theorem fst_dictUpd {κ β : Type} [BEq κ] [LawfulBEq κ] (m : List (κ × β)) (k : κ) (v : β) :
    (dictUpd m k v).map Prod.fst
      = if (m.lookup k).isSome then m.map Prod.fst else m.map Prod.fst ++ [k] := by
  unfold dictUpd
  split
  · exact fst_map_replace m k v
  · simp

theorem lookup_isSome_iff_mem {κ β : Type} [BEq κ] [LawfulBEq κ] (m : List (κ × β)) (k : κ) :
    (m.lookup k).isSome = true ↔ k ∈ m.map Prod.fst := by
  induction m with
  | nil => simp
  | cons p rest ih =>
    obtain ⟨a, b⟩ := p
    by_cases hp : k = a
    · subst hp
      simp [List.lookup_cons]
    · have hb : (k == a) = false := beq_eq_false_iff_ne.mpr hp
      simp [List.lookup_cons, hb, ih, hp]

/-- First-seen-order key accumulation, continuing from already-seen keys. -/
def firstSeenFrom (ks : List Value) (l : List Value) : List Value :=
  l.foldl (fun ks v => if v ∈ ks then ks else ks ++ [v]) ks

/-- The distinct values of a list in first-seen order — the key order a
Python dict built by insertion exhibits. -/
def firstSeen (l : List Value) : List Value := firstSeenFrom [] l

theorem fst_groupStep (func : Str) (gr : List (Value × Acc)) (gv : Value) (av : Dec)
    (hfunc : func = pstr "MAX" ∨ func = pstr "MIN" ∨ func = pstr "SUM" ∨ func = pstr "COUNT") :
    (groupStep func gr gv av).map Prod.fst
      = if gv ∈ gr.map Prod.fst then gr.map Prod.fst else gr.map Prod.fst ++ [gv] := by
  have key : ∀ x : Acc, (dictUpd gr gv x).map Prod.fst
      = if gv ∈ gr.map Prod.fst then gr.map Prod.fst else gr.map Prod.fst ++ [gv] := by
    intro x
    rw [fst_dictUpd]
    by_cases hm : gv ∈ gr.map Prod.fst
    · rw [if_pos ((lookup_isSome_iff_mem gr gv).mpr hm), if_pos hm]
    · rw [if_neg (fun hs => hm ((lookup_isSome_iff_mem gr gv).mp hs)), if_neg hm]
  rcases hfunc with h | h | h | h <;> subst h <;>
    simp only [groupStep, reduceIte] <;> exact key _

theorem fold_groupStep_fst (func : Str)
    (hfunc : func = pstr "MAX" ∨ func = pstr "MIN" ∨ func = pstr "SUM" ∨ func = pstr "COUNT") :
    ∀ (pairs : List (Value × Dec)) (gr : List (Value × Acc)),
      (pairs.foldl (fun g p => groupStep func g p.1 p.2) gr).map Prod.fst
        = firstSeenFrom (gr.map Prod.fst) (pairs.map Prod.fst)
  | [], _ => rfl
  | p :: ps, gr => by
    show (List.foldl _ (groupStep func gr p.1 p.2) ps).map Prod.fst = _
    rw [fold_groupStep_fst func hfunc ps (groupStep func gr p.1 p.2),
      fst_groupStep func gr p.1 p.2 hfunc]
    rfl

/-- Claim C5 concrete table: rows (Alice, 30, HR), (Bob, 25, IT),
(Carol, 35, HR). -/
def c5tbl : Table :=
  { schema := ⟨[(pstr "name", DType.str), (pstr "age", DType.int), (pstr "dept", DType.str)],
               pstr "name"⟩
    metadata := ⟨2, []⟩
    pk_index := [(pstr "Alice", 0), (pstr "Bob", 1), (pstr "Carol", 2)]
    pages := [(0, [[pstr "Alice", pstr "30", pstr "HR"],
                   [pstr "Bob", pstr "25", pstr "IT"],
                   [pstr "Carol", pstr "35", pstr "HR"]])] }

/-- Claim C5 second table: a `str` aggregate column holding an empty value,
an unparseable value, and a numeric one. -/
def c5tbl2 : Table :=
  { schema := ⟨[(pstr "id", DType.str), (pstr "dept", DType.str), (pstr "age", DType.str)],
               pstr "id"⟩
    metadata := ⟨2, []⟩
    pk_index := [(pstr "1", 0), (pstr "2", 1), (pstr "3", 2)]
    pages := [(0, [[pstr "1", pstr "HR", pstr ""],
                   [pstr "2", pstr "HR", pstr "abc"],
                   [pstr "3", pstr "IT", pstr "5"]])] }

/-- Claim C5: `perform_group_by` makes one pass keeping a lazily created
accumulator per distinct group value, returns one pair per distinct group in
first-seen order, parses the aggregate value as a float treating empty or
unparseable values as 0 (diagnostic only), counts every row for `COUNT`
regardless of the aggregate value, and on rows (HR,30),(IT,25),(HR,35)
grouped by department `SUM(age)` yields ("HR", 65) and ("IT", 25). -/
theorem c5_group_by_correct :
    (∀ (func : Str) (pairs : List (Value × Dec)),
      func = pstr "MAX" ∨ func = pstr "MIN" ∨ func = pstr "SUM" ∨ func = pstr "COUNT" →
      (pairs.foldl (fun g p => groupStep func g p.1 p.2) []).map Prod.fst
        = firstSeen (pairs.map Prod.fst)) ∧
    (∀ (gr : List (Value × Acc)) (gv : Value) (av av2 : Dec),
      groupStep (pstr "COUNT") gr gv av = groupStep (pstr "COUNT") gr gv av2) ∧
    (∀ (row : List (Str × Value)) (af : Str) (v : Value),
      af ≠ [] → row.lookup af = some v → truthy v = false →
      aggValue row af = .ok (Dec.fromInt 0)) ∧
    (∀ (row : List (Str × Value)) (af : Str) (s : Str),
      af ≠ [] → row.lookup af = some (.vStr s) → pyFloatParse s = none →
      aggValue row af = .ok (Dec.fromInt 0)) ∧
    perform_group_by c5tbl (pstr "dept") (pstr "SUM") (pstr "age")
      = .ok ([pstr "dept", pstr "SUM"],
             [(.vStr (pstr "HR"), .num (Dec.fromInt 65)),
              (.vStr (pstr "IT"), .num (Dec.fromInt 25))]) ∧
    perform_group_by c5tbl2 (pstr "dept") (pstr "COUNT") (pstr "age")
      = .ok ([pstr "dept", pstr "COUNT"],
             [(.vStr (pstr "HR"), .num (Dec.fromInt 2)),
              (.vStr (pstr "IT"), .num (Dec.fromInt 1))]) ∧
    perform_group_by c5tbl2 (pstr "dept") (pstr "SUM") (pstr "age")
      = .ok ([pstr "dept", pstr "SUM"],
             [(.vStr (pstr "HR"), .num (Dec.fromInt 0)),
              (.vStr (pstr "IT"), .num (Dec.fromInt 5))]) := by
  refine ⟨?_, ?_, ?_, ?_, by decide, by decide, by decide⟩
  · intro func pairs hfunc
    exact fold_groupStep_fst func hfunc pairs []
  · intro gr gv av av2
    rfl
  · intro row af v haf hlook htr
    unfold aggValue
    rw [if_neg haf, hlook]
    simp [htr]
  · intro row af s haf hlook hparse
    unfold aggValue
    rw [if_neg haf, hlook]
    cases htr : truthy (.vStr s) with
    | false => simp [htr]
    | true => simp [htr, pyFloatOfValue, hparse]

/-- Claim C5 witness: first-seen order of group keys on the concrete HR/IT
row sequence. -/
theorem c5_witness :
    ([(Value.vStr (pstr "HR"), Dec.fromInt 30), (Value.vStr (pstr "IT"), Dec.fromInt 25),
      (Value.vStr (pstr "HR"), Dec.fromInt 35)].foldl
        (fun g p => groupStep (pstr "SUM") g p.1 p.2) []).map Prod.fst
      = firstSeen ([(Value.vStr (pstr "HR"), Dec.fromInt 30),
          (Value.vStr (pstr "IT"), Dec.fromInt 25),
          (Value.vStr (pstr "HR"), Dec.fromInt 35)].map Prod.fst) :=
  c5_group_by_correct.1 (pstr "SUM")
    [(Value.vStr (pstr "HR"), Dec.fromInt 30), (Value.vStr (pstr "IT"), Dec.fromInt 25),
     (Value.vStr (pstr "HR"), Dec.fromInt 35)]
    (Or.inr (Or.inr (Or.inl rfl)))

/-! ### Ordered non-join query path (`execute_join_query` without a join table) -/

theorem Dec.leB_trans {a b c : Dec} (h1 : Dec.leB a b = true) (h2 : Dec.leB b c = true) :
    Dec.leB a c = true := by
  unfold Dec.leB at h1 h2 ⊢
  rw [decide_eq_true_eq] at h1 h2 ⊢
  have hA : (0:Int) < (10 : Int) ^ a.exp := pow_pos (by norm_num) _
  have hB : (0:Int) < (10 : Int) ^ b.exp := pow_pos (by norm_num) _
  have hC : (0:Int) < (10 : Int) ^ c.exp := pow_pos (by norm_num) _
  nlinarith [mul_le_mul_of_nonneg_right h1 (le_of_lt hC),
    mul_le_mul_of_nonneg_right h2 (le_of_lt hA)]

theorem Dec.leB_total (a b : Dec) : (Dec.leB a b || Dec.leB b a) = true := by
  unfold Dec.leB
  rcases le_total (a.man * (10 : Int) ^ b.exp) (b.man * (10 : Int) ^ a.exp) with h | h <;>
    simp [h]

/-- The total comparator Python's per-page `sort` effectively applies on the
ordering column's typed values: numbers (bools included) compare numerically,
strings lexicographically. Python raises `TypeError` on a number/str mix;
the claims only sort homogeneous columns, where this comparator and Python's
agree — mixed pairs are ordered numbers-first solely to keep the comparator
total. -/
def valLeB (a b : Value) : Bool :=
  match pyNumD a, pyNumD b with
  | some x, some y => Dec.leB x y
  | some _, none => true
  | none, some _ => false
  | none, none =>
    match a, b with
    | .vStr s, .vStr t => decide (s ≤ t)
    | _, _ => true

theorem valLeB_trans : ∀ a b c : Value, valLeB a b = true → valLeB b c = true →
    valLeB a c = true := by
  intro a b c h1 h2
  rcases a with n1 | d1 | b1 | s1 <;> rcases b with n2 | d2 | b2 | s2 <;>
    rcases c with n3 | d3 | b3 | s3 <;>
    simp only [valLeB, pyNumD, decide_eq_true_eq] at h1 h2 ⊢ <;>
    first
      | rfl
      | exact Dec.leB_trans h1 h2
      | exact (Bool.false_ne_true h1).elim
      | exact (Bool.false_ne_true h2).elim
      | exact le_trans h1 h2

theorem valLeB_total : ∀ a b : Value, (valLeB a b || valLeB b a) = true := by
  intro a b
  rcases a with n1 | d1 | b1 | s1 <;> rcases b with n2 | d2 | b2 | s2 <;>
    simp only [valLeB, pyNumD] <;>
    first
      | rfl
      | exact Dec.leB_total _ _
      | simp [le_total]

/-- A row presented to the condition evaluator and projections: the
`dict(zip(columns, row))` field map, in insertion order. -/
abbrev Chunk := List (Str × Value)

/-- A nested-form condition as these claims exercise it: absent (`None`,
always true) or a single 3-token leaf, on which `recursive_eval` falls
through to `evaluate_condition`. -/
def evaluate_conditions (item : Chunk) (conds : Option (Str × Str × Str)) :
    Except DBError Bool :=
  match conds with
  | none => .ok true
  | some c => evaluate_condition item c

/-- Loading one page's live rows as field maps
(`dict(zip(schema.columns, row))`). -/
def pageChunks (schema : Schema) (conds : Option (Str × Str × Str))
    (rows : List (List Str)) : Except DBError (List Chunk) := do
  let loaded ← load_rows schema rows
  (loaded.map (fun r => (schema.columns.map (fun cd => cd.1)).zip r)).filterM
    (fun c => evaluate_conditions c conds)

/-- The sort key `x[order_by[0]]` (the claims order by an existing column;
a missing column would raise `KeyError` mid-sort in Python). -/
def chunkKey (obcol : Str) (c : Chunk) : Value := (c.lookup obcol).getD (.vStr [])

/-- The comparator the stable per-page `list.sort` applies (`reverse=True`
for `DESC`). -/
def chunkCmp (obcol : Str) (asc : Bool) (a b : Chunk) : Bool :=
  if asc then valLeB (chunkKey obcol a) (chunkKey obcol b)
  else valLeB (chunkKey obcol b) (chunkKey obcol a)

/-- The per-page stable sort of the filtered chunk list (Python `list.sort`
is stable; a stable structural sort models it). -/
def sortChunks (obcol : Str) (asc : Bool) (chunks : List Chunk) : List Chunk :=
  chunks.insertionSort (fun a b => chunkCmp obcol asc a b = true)

instance chunkCmpTotal (obcol : Str) (asc : Bool) :
    IsTotal Chunk (fun a b => chunkCmp obcol asc a b = true) := by
  constructor
  intro a b
  unfold chunkCmp
  cases asc
  · have h := valLeB_total (chunkKey obcol b) (chunkKey obcol a)
    simp only [Bool.or_eq_true] at h
    simpa using h
  · have h := valLeB_total (chunkKey obcol a) (chunkKey obcol b)
    simp only [Bool.or_eq_true] at h
    simpa using h

instance chunkCmpTrans (obcol : Str) (asc : Bool) :
    IsTrans Chunk (fun a b => chunkCmp obcol asc a b = true) := by
  constructor
  intro a b c h1 h2
  unfold chunkCmp at h1 h2 ⊢
  cases asc
  · simp only [Bool.false_eq_true, if_false] at h1 h2 ⊢
    exact valLeB_trans _ _ _ h2 h1
  · simp only [if_true] at h1 h2 ⊢
    exact valLeB_trans _ _ _ h1 h2

/-- `csv.DictWriter.writerow`: the chunk's values, stringified, in field
order. -/
def serializeChunk (c : Chunk) : Rec := c.map (fun p => pyStr p.2)

/-- One page's contribution to the spilled runs: `None` when the page's
filtered result is empty (no run file is written), otherwise the sorted,
serialized run. -/
def pageRun (schema : Schema) (conds : Option (Str × Str × Str)) (obcol : Str) (asc : Bool)
    (rows : List (List Str)) : Except DBError (Option (List Rec)) := do
  let filtered ← pageChunks schema conds rows
  if filtered = [] then pure none
  else pure (some ((sortChunks obcol asc filtered).map serializeChunk))

/-- The run files `join_0.csv, join_1.csv, ...` spilled by the ordered
non-join query path, in page order. -/
def queryRunsOrdered (tbl : Table) (conds : Option (Str × Str × Str)) (obcol : Str)
    (asc : Bool) : Except DBError (List (List Rec)) :=
  (scanPages tbl).foldlM
    (fun runs i => do
      let rows ← read_page tbl i
      let r ← pageRun tbl.schema conds obcol asc rows
      pure (match r with
            | none => runs
            | some run => runs ++ [run]))
    []

/-- The ordered non-join query path: spill per-page sorted runs, merge them
with the external merge sorter (which compares the ordering column's textual
value), read the merged file back, and project every schema column
(`item.get(field, None)`). -/
def executeQueryOrdered (tbl : Table) (conds : Option (Str × Str × Str)) (obcol : Str)
    (asc : Bool) : Except DBError (List (List (Option Str))) := do
  let runs ← queryRunsOrdered tbl conds obcol asc
  match mergeAll asc (List.indexOf obcol (tbl.schema.columns.map (fun cd => cd.1))) runs with
  | none => .error .indexError
  | some merged =>
    let cols := tbl.schema.columns.map (fun cd => cd.1)
    pure (merged.map (fun r => cols.map (fun c => (cols.zip r).lookup c)))

/-- The intended global order of an ordered query's result rows: the ordering
column's value, read back as text, compared as the integers it denotes
(rows whose key is not an integer impose no constraint). -/
def intKeyLe (col : Nat) (r1 r2 : List (Option Str)) : Prop :=
  match (r1.getD col none).bind pyIntParse, (r2.getD col none).bind pyIntParse with
  | some a, some b => a ≤ b
  | _, _ => True

instance intKeyLeDec (col : Nat) : DecidableRel (intKeyLe col) := fun r1 r2 => by
  unfold intKeyLe
  rcases (r1.getD col none).bind pyIntParse with _ | a <;>
    rcases (r2.getD col none).bind pyIntParse with _ | b <;>
    infer_instance

/-- Claim C7 witness table: one `int` column `x`, live rows with value 2 on
page 0 and value 10 on page 1 (ids 1–63 tombstoned). -/
def c7tbl : Table :=
  { schema := ⟨[(pstr "x", DType.int)], pstr "x"⟩
    metadata := ⟨64, (List.range 63).map (fun i => i + 1)⟩
    pk_index := [(pstr "2", 0), (pstr "10", 64)]
    pages := [(0, [pstr "2"] :: List.replicate 63 [pstr ""]), (1, [[pstr "10"]])] }

set_option maxRecDepth 100000 in
/-- Claim C7: in the ordered non-join query path each page's filtered results
are sorted independently (every spilled run is the stable sort of that page's
filtered chunks under the ordering comparator), and the result returned for
this path is not guaranteed to be globally sorted across pages: with rows 2
and 10 on different pages, the ascending query returns them in the order
10, 2, because the merge compares the textual values "10" < "2". -/
theorem c7_ordered_query_not_globally_sorted :
    (∀ (schema : Schema) (conds : Option (Str × Str × Str)) (obcol : Str) (asc : Bool)
        (rows : List (List Str)) (run : List Rec),
      pageRun schema conds obcol asc rows = .ok (some run) →
      ∃ chunks : List Chunk,
        List.Sorted (fun a b => chunkCmp obcol asc a b = true) chunks ∧
        run = chunks.map serializeChunk) ∧
    (∃ res, executeQueryOrdered c7tbl none (pstr "x") true = .ok res ∧
      ¬ List.Sorted (intKeyLe 0) res) := by
  constructor
  · intro schema conds obcol asc rows run h
    unfold pageRun at h
    cases hp : pageChunks schema conds rows with
    | error e => rw [hp] at h; simp at h
    | ok filtered =>
      rw [hp] at h
      by_cases he : filtered = []
      · rw [except_bind_ok] at h
        rw [if_pos he] at h
        simp at h
      · rw [except_bind_ok, if_neg he] at h
        simp only [except_pure_eq] at h
        have hrun : run = (sortChunks obcol asc filtered).map serializeChunk := by
          cases h; rfl

        exact ⟨sortChunks obcol asc filtered,
          List.sorted_insertionSort (fun a b => chunkCmp obcol asc a b = true) filtered, hrun⟩
  · refine ⟨[[some (pstr "10")], [some (pstr "2")]], by decide, by decide⟩

/-- Claim C7 witness: a concrete nonempty page yields a run that is the
serialized stable sort of its filtered chunks. -/
theorem c7_witness :
    ∃ chunks : List Chunk,
      List.Sorted (fun a b => chunkCmp (pstr "x") true a b = true) chunks ∧
      [[pstr "2"], [pstr "7"]] = chunks.map serializeChunk :=
  c7_ordered_query_not_globally_sorted.1 ⟨[(pstr "x", DType.int)], pstr "x"⟩ none
    (pstr "x") true [[pstr "7"], [pstr "2"]] [[pstr "2"], [pstr "7"]] (by decide)

/-! ### Nested-loop join path (`execute_join_query` with a join table) -/

/-- Python `s.split("==")`: non-overlapping left-to-right split on the
two-character separator. -/
def splitOnEqEq : Str → List Str
  | [] => [[]]
  | '=' :: '=' :: rest => [] :: splitOnEqEq rest
  | c :: rest =>
    match splitOnEqEq rest with
    | seg :: segs => (c :: seg) :: segs
    | [] => [[c]]

/-- Numeric equality of two exact decimals by cross-scaling. -/
def Dec.eqB (a b : Dec) : Bool :=
  decide (a.man * (10 : Int) ^ b.exp = b.man * (10 : Int) ^ a.exp)

/-- Python `==` on converted values: numbers (bools included) compare
numerically, strings textually, a number and a string are unequal. -/
def pyEq (a b : Value) : Bool :=
  match pyNumD a, pyNumD b with
  | some x, some y => Dec.eqB x y
  | none, none =>
    match a, b with
    | .vStr s, .vStr t => s == t
    | _, _ => false
  | _, _ => false

/-- Table-qualified column names `table.column`. -/
def nsCols (tname : Str) (cols : List Str) : List Str :=
  cols.map (fun c => tname ++ '.' :: c)

/-- `merge_chunks_bool(chunk_i, chunk_j, join_conditions)`: split the join
condition on `==` (an unpacking error unless exactly two parts), look both
columns up (`KeyError` on a miss), compare with `==`. -/
def merge_chunks_bool (ci cj : Chunk) (jc : Str) : Except DBError Bool :=
  match splitOnEqEq jc with
  | [t1c, t2c] => do
    let v1 ← dictGet ci t1c
    let v2 ← dictGet cj t2c
    pure (pyEq v1 v2)
  | _ => .error .unpackMismatch

/-- The join path's raw row conversion
(`for idx, col in enumerate(row): row[idx] = _check_datatype(col, ...)`):
every field of every raw CSV row is converted — tombstones and padding
included; a row longer than the column list raises `IndexError`. -/
def convertRowJoin (types : List DType) (row : List Str) : Except DBError (List Value) :=
  if types.length < row.length then .error .indexError
  else (row.zip types).mapM (fun p => check_datatype p.1 p.2)

/-- Python `chunk_i.update(chunk_j)`. -/
def dictUpdMany (m addl : Chunk) : Chunk :=
  addl.foldl (fun m p => dictUpd m p.1 p.2) m

/-- One iteration of the join's innermost loop: convert the raw right row,
test the join predicate, and on a match merge the rows
(`chunk_i.update(chunk_j)`) and apply the filter conditions. -/
def joinInnerStep (rtypes : List DType) (rns : List Str) (ci : Chunk) (jc : Str)
    (conds : Option (Str × Str × Str)) (acc : List Chunk) (row_j : List Str) :
    Except DBError (List Chunk) := do
  let vj ← convertRowJoin rtypes row_j
  let cj := rns.zip vj
  let m ← merge_chunks_bool ci cj jc
  if m then do
    let merged := dictUpdMany ci cj
    let keep ← evaluate_conditions merged conds
    pure (if keep then acc ++ [merged] else acc)
  else pure acc

/-- The inner loop of the join over one right page's raw rows, for a fixed
converted left row. -/
def joinRowsInner (rtypes : List DType) (rns : List Str) (ci : Chunk) (jc : Str)
    (conds : Option (Str × Str × Str)) (rowsJ : List (List Str)) :
    Except DBError (List Chunk) :=
  rowsJ.foldlM (joinInnerStep rtypes rns ci jc conds) []

/-- One iteration of the join's left-row loop: convert the raw left row and
run the whole right page against it. -/
def joinPairStep (ltypes rtypes : List DType) (lns rns : List Str) (jc : Str)
    (conds : Option (Str × Str × Str)) (rowsJ : List (List Str)) (acc : List Chunk)
    (row_i : List Str) : Except DBError (List Chunk) := do
  let vi ← convertRowJoin ltypes row_i
  let ci := lns.zip vi
  let r ← joinRowsInner rtypes rns ci jc conds rowsJ
  pure (acc ++ r)

/-- One page pair of the nested-loop join: every raw left row against every
raw right row. -/
def joinPagePair (ltypes rtypes : List DType) (lns rns : List Str) (jc : Str)
    (conds : Option (Str × Str × Str)) (rowsI rowsJ : List (List Str)) :
    Except DBError (List Chunk) :=
  rowsI.foldlM (joinPairStep ltypes rtypes lns rns jc conds rowsJ) []

/-- One iteration over the right table's page files for a fixed left page. -/
def joinRightPageStep (left right : Table) (lns rns : List Str) (jc : Str)
    (conds : Option (Str × Str × Str)) (rowsI : List (List Str)) (acc : List Chunk)
    (j : Nat) : Except DBError (List Chunk) := do
  let rowsJ ← read_page right j
  let r ← joinPagePair (left.schema.columns.map (fun cd => cd.2))
    (right.schema.columns.map (fun cd => cd.2)) lns rns jc conds rowsI rowsJ
  pure (acc ++ r)

/-- One iteration over the left table's page files. -/
def joinLeftPageStep (left right : Table) (lns rns : List Str) (jc : Str)
    (conds : Option (Str × Str × Str)) (acc : List Chunk) (i : Nat) :
    Except DBError (List Chunk) := do
  let rowsI ← read_page left i
  (scanPages right).foldlM (joinRightPageStep left right lns rns jc conds rowsI) acc

/-- `execute_join_query` with a join table and no `order_by`, projecting the
default column list (all columns of both tables, namespaced): nested loop
over every page pair, reading every raw CSV row of both tables. -/
def executeJoinQuery (left right : Table) (lname rname : Str) (jc : Str)
    (conds : Option (Str × Str × Str)) :
    Except DBError (List Str × List (List (Option Value))) := do
  let lns := nsCols lname (left.schema.columns.map (fun cd => cd.1))
  let rns := nsCols rname (right.schema.columns.map (fun cd => cd.1))
  let result ← (scanPages left).foldlM (joinLeftPageStep left right lns rns jc conds) []
  let fields := lns ++ rns
  pure (fields, result.map (fun item => fields.map (fun f => item.lookup f)))

/-- The result is a type-conversion failure (the only error `_check_datatype`
raises). -/
def isTC {α : Type} (r : Except DBError α) : Prop :=
  ∃ v t, r = .error (.typeConversionError v t)

theorem check_datatype_shape (v : Str) (t : DType) :
    (∃ val, check_datatype v t = .ok val) ∨
      check_datatype v t = .error (.typeConversionError v t) := by
  cases t
  · cases h : pyIntParse v with
    | some n => exact Or.inl ⟨.vInt n, by simp [check_datatype, h]⟩
    | none => exact Or.inr (by simp [check_datatype, h])
  · cases h : pyFloatParse v with
    | some d => exact Or.inl ⟨.vFloat d, by simp [check_datatype, h]⟩
    | none => exact Or.inr (by simp [check_datatype, h])
  · by_cases h1 : lowerStr v = pstr "true"
    · exact Or.inl ⟨.vBool true, by simp only [check_datatype]; rw [if_pos h1]⟩
    · by_cases h2 : lowerStr v = pstr "false"
      · exact Or.inl ⟨.vBool false, by simp only [check_datatype]; rw [if_neg h1, if_pos h2]⟩
      · exact Or.inr (by simp only [check_datatype]; rw [if_neg h1, if_neg h2])
  · exact Or.inl ⟨.vStr v, rfl⟩
  · exact Or.inl ⟨.vStr v, rfl⟩

theorem mapM_check_shape : ∀ pairs : List (Str × DType),
    (∃ vs, pairs.mapM (fun p => check_datatype p.1 p.2) = .ok vs ∧ vs.length = pairs.length) ∨
      isTC (pairs.mapM (fun p => check_datatype p.1 p.2)) := by
  intro pairs
  induction pairs with
  | nil => exact Or.inl ⟨[], rfl, rfl⟩
  | cons p ps ih =>
    rcases check_datatype_shape p.1 p.2 with ⟨val, hv⟩ | hv
    · rcases ih with ⟨vs, hvs, hlen⟩ | ⟨v, t, he⟩
      · exact Or.inl ⟨val :: vs,
          by rw [List.mapM_cons, hv, except_bind_ok, hvs, except_bind_ok, except_pure_eq],
          by simp [hlen]⟩
      · exact Or.inr ⟨v, t, by rw [List.mapM_cons, hv, except_bind_ok, he, except_bind_error]⟩
    · exact Or.inr ⟨p.1, p.2, by rw [List.mapM_cons, hv, except_bind_error]⟩

theorem convertRowJoin_shape (types : List DType) (row : List Str)
    (hlen : row.length = types.length) :
    (∃ vs, convertRowJoin types row = .ok vs ∧ vs.length = row.length) ∨
      isTC (convertRowJoin types row) := by
  unfold convertRowJoin
  rw [if_neg (by omega)]
  rcases mapM_check_shape (row.zip types) with ⟨vs, hvs, hl⟩ | h
  · refine Or.inl ⟨vs, hvs, ?_⟩
    rw [hl, List.length_zip]
    omega
  · exact Or.inr h

theorem zip_replicate_empty : ∀ types : List DType,
    (List.replicate types.length ([] : Str)).zip types = types.map (fun t => (([] : Str), t))
  | [] => rfl
  | t :: ts => by
    simp only [List.length_cons, List.replicate_succ, List.zip_cons_cons, List.map_cons]
    rw [zip_replicate_empty ts]

theorem mapM_empty_fields_tc : ∀ types : List DType,
    DType.int ∈ types ∨ DType.float ∈ types →
    isTC ((types.map (fun t => (([] : Str), t))).mapM (fun p => check_datatype p.1 p.2)) := by
  intro types
  induction types with
  | nil =>
    intro hty
    rcases hty with h | h <;> simp at h
  | cons t ts ih =>
    intro hty
    rw [List.map_cons]
    cases t
    case int =>
      refine ⟨[], DType.int, ?_⟩
      have h1 : check_datatype [] DType.int = .error (.typeConversionError [] DType.int) := by
        decide
      rw [List.mapM_cons, h1, except_bind_error]
    case float =>
      refine ⟨[], DType.float, ?_⟩
      have h1 : check_datatype [] DType.float = .error (.typeConversionError [] DType.float) := by
        decide
      rw [List.mapM_cons, h1, except_bind_error]
    case bool =>
      refine ⟨[], DType.bool, ?_⟩
      have h1 : check_datatype [] DType.bool = .error (.typeConversionError [] DType.bool) := by
        decide
      rw [List.mapM_cons, h1, except_bind_error]
    case str =>
      have hty2 : DType.int ∈ ts ∨ DType.float ∈ ts := by
        rcases hty with h | h
        · rcases List.mem_cons.mp h with h | h
          · exact absurd h (by decide)
          · exact Or.inl h
        · rcases List.mem_cons.mp h with h | h
          · exact absurd h (by decide)
          · exact Or.inr h
      obtain ⟨v, t', he⟩ := ih hty2
      refine ⟨v, t', ?_⟩
      have h1 : check_datatype [] DType.str = .ok (.vStr []) := rfl
      rw [List.mapM_cons, h1, except_bind_ok, he, except_bind_error]
    case char =>
      have hty2 : DType.int ∈ ts ∨ DType.float ∈ ts := by
        rcases hty with h | h
        · rcases List.mem_cons.mp h with h | h
          · exact absurd h (by decide)
          · exact Or.inl h
        · rcases List.mem_cons.mp h with h | h
          · exact absurd h (by decide)
          · exact Or.inr h
      obtain ⟨v, t', he⟩ := ih hty2
      refine ⟨v, t', ?_⟩
      have h1 : check_datatype [] DType.char = .ok (.vStr []) := rfl
      rw [List.mapM_cons, h1, except_bind_ok, he, except_bind_error]

theorem convert_tombstone_tc (types : List DType)
    (hty : DType.int ∈ types ∨ DType.float ∈ types) :
    isTC (convertRowJoin types (List.replicate types.length ([] : Str))) := by
  unfold convertRowJoin
  rw [if_neg (by simp), zip_replicate_empty]
  exact mapM_empty_fields_tc types hty

theorem foldlM_ok_or_tc {α β : Type} (f : β → α → Except DBError β) :
    ∀ l : List α, (∀ b a, a ∈ l → (∃ b2, f b a = .ok b2) ∨ isTC (f b a)) →
      ∀ b0, (∃ r, List.foldlM f b0 l = .ok r) ∨ isTC (List.foldlM f b0 l) := by
  intro l
  induction l with
  | nil =>
    intro _ b0
    exact Or.inl ⟨b0, by rw [List.foldlM_nil, except_pure_eq]⟩
  | cons a rest ih =>
    intro hstep b0
    rcases hstep b0 a (by simp) with ⟨b2, hb⟩ | ⟨v, t, he⟩
    · rw [List.foldlM_cons, hb, except_bind_ok]
      exact ih (fun b x hx => hstep b x (by simp [hx])) b2
    · exact Or.inr ⟨v, t, by rw [List.foldlM_cons, he, except_bind_error]⟩

theorem foldlM_tc_of_mem {α β : Type} (f : β → α → Except DBError β) :
    ∀ l : List α, (∀ b a, a ∈ l → (∃ b2, f b a = .ok b2) ∨ isTC (f b a)) →
      ∀ x, x ∈ l → (∀ b, isTC (f b x)) →
      ∀ b0, isTC (List.foldlM f b0 l) := by
  intro l
  induction l with
  | nil =>
    intro _ x hx
    simp at hx
  | cons a rest ih =>
    intro hstep x hx hx2 b0
    rcases List.mem_cons.mp hx with he | hm
    · obtain ⟨v, t, herr⟩ := hx2 b0
      rw [he] at herr
      exact ⟨v, t, by rw [List.foldlM_cons, herr, except_bind_error]⟩
    · rcases hstep b0 a (by simp) with ⟨b2, hb⟩ | ⟨v, t, herr⟩
      · obtain ⟨v, t, hres⟩ :=
          ih (fun b y hy => hstep b y (by simp [hy])) x hm hx2 b2
        exact ⟨v, t, by rw [List.foldlM_cons, hb, except_bind_ok]; exact hres⟩
      · exact ⟨v, t, by rw [List.foldlM_cons, herr, except_bind_error]⟩

theorem lookup_zip_of_mem (ks : List Str) (vs : List Value) (k : Str)
    (hk : k ∈ ks) (hlen : ks.length ≤ vs.length) :
    ∃ v, (ks.zip vs).lookup k = some v := by
  have hfst : (ks.zip vs).map Prod.fst = ks := List.map_fst_zip ks vs hlen
  have hs : ((ks.zip vs).lookup k).isSome = true :=
    (lookup_isSome_iff_mem (ks.zip vs) k).mpr (by rw [hfst]; exact hk)
  cases h : (ks.zip vs).lookup k with
  | none => rw [h] at hs; simp at hs
  | some v => exact ⟨v, rfl⟩

theorem joinInnerStep_shape (rtypes : List DType) (rns : List Str) (ci : Chunk)
    (jc t1c t2c : Str)
    (hjc : splitOnEqEq jc = [t1c, t2c])
    (ht1 : ∃ v, ci.lookup t1c = some v)
    (ht2 : t2c ∈ rns)
    (hrlen : rns.length = rtypes.length)
    (acc : List Chunk) (row : List Str) (hrow : row.length = rtypes.length) :
    (∃ b2, joinInnerStep rtypes rns ci jc none acc row = .ok b2) ∨
      isTC (joinInnerStep rtypes rns ci jc none acc row) := by
  unfold joinInnerStep
  rcases convertRowJoin_shape rtypes row hrow with ⟨vj, hvj, hlenvj⟩ | ⟨v, t, herr⟩
  · obtain ⟨v1, hv1⟩ := ht1
    obtain ⟨v2, hv2⟩ := lookup_zip_of_mem rns vj t2c ht2 (by omega)
    have hmb : merge_chunks_bool ci (rns.zip vj) jc = .ok (pyEq v1 v2) := by
      unfold merge_chunks_bool
      rw [hjc]
      simp [dictGet, hv1, hv2]
    cases hpe : pyEq v1 v2 with
    | true =>
      refine Or.inl ⟨acc ++ [dictUpdMany ci (rns.zip vj)], ?_⟩
      rw [hvj, except_bind_ok]
      dsimp only
      rw [hmb, except_bind_ok, hpe]
      simp [evaluate_conditions]
    | false =>
      refine Or.inl ⟨acc, ?_⟩
      rw [hvj, except_bind_ok]
      dsimp only
      rw [hmb, except_bind_ok, hpe]
      simp
  · exact Or.inr ⟨v, t, by rw [herr, except_bind_error]⟩

theorem joinRowsInner_shape (rtypes : List DType) (rns : List Str) (ci : Chunk)
    (jc t1c t2c : Str) (rowsJ : List (List Str))
    (hjc : splitOnEqEq jc = [t1c, t2c])
    (ht1 : ∃ v, ci.lookup t1c = some v)
    (ht2 : t2c ∈ rns)
    (hrlen : rns.length = rtypes.length)
    (hrows : ∀ row ∈ rowsJ, row.length = rtypes.length) :
    (∃ r, joinRowsInner rtypes rns ci jc none rowsJ = .ok r) ∨
      isTC (joinRowsInner rtypes rns ci jc none rowsJ) := by
  unfold joinRowsInner
  exact foldlM_ok_or_tc _ rowsJ
    (fun b a ha => joinInnerStep_shape rtypes rns ci jc t1c t2c hjc ht1 ht2 hrlen b a
      (hrows a ha)) []

theorem joinRowsInner_tc (rtypes : List DType) (rns : List Str) (ci : Chunk)
    (jc t1c t2c : Str) (rowsJ : List (List Str))
    (hjc : splitOnEqEq jc = [t1c, t2c])
    (ht1 : ∃ v, ci.lookup t1c = some v)
    (ht2 : t2c ∈ rns)
    (hrlen : rns.length = rtypes.length)
    (hrows : ∀ row ∈ rowsJ, row.length = rtypes.length)
    (htomb : List.replicate rtypes.length ([] : Str) ∈ rowsJ)
    (hty : DType.int ∈ rtypes ∨ DType.float ∈ rtypes) :
    isTC (joinRowsInner rtypes rns ci jc none rowsJ) := by
  unfold joinRowsInner
  refine foldlM_tc_of_mem _ rowsJ
    (fun b a ha => joinInnerStep_shape rtypes rns ci jc t1c t2c hjc ht1 ht2 hrlen b a
      (hrows a ha))
    (List.replicate rtypes.length []) htomb ?_ []
  intro b
  obtain ⟨v, t, herr⟩ := convert_tombstone_tc rtypes hty
  exact ⟨v, t, by unfold joinInnerStep; rw [herr, except_bind_error]⟩

theorem joinPairStep_shape (ltypes rtypes : List DType) (lns rns : List Str)
    (jc t1c t2c : Str) (rowsJ : List (List Str))
    (hjc : splitOnEqEq jc = [t1c, t2c])
    (ht1 : t1c ∈ lns) (ht2 : t2c ∈ rns)
    (hllen : lns.length = ltypes.length) (hrlen : rns.length = rtypes.length)
    (hrowsJ : ∀ row ∈ rowsJ, row.length = rtypes.length)
    (acc : List Chunk) (row : List Str) (hrow : row.length = ltypes.length) :
    (∃ b2, joinPairStep ltypes rtypes lns rns jc none rowsJ acc row = .ok b2) ∨
      isTC (joinPairStep ltypes rtypes lns rns jc none rowsJ acc row) := by
  unfold joinPairStep
  rcases convertRowJoin_shape ltypes row hrow with ⟨vi, hvi, hlenvi⟩ | ⟨v, t, herr⟩
  · have ht1' : ∃ v, ((lns.zip vi).lookup t1c) = some v :=
      lookup_zip_of_mem lns vi t1c ht1 (by omega)
    rcases joinRowsInner_shape rtypes rns (lns.zip vi) jc t1c t2c rowsJ hjc ht1' ht2 hrlen
        hrowsJ with ⟨r, hr⟩ | ⟨v, t, herr2⟩
    · refine Or.inl ⟨acc ++ r, ?_⟩
      rw [hvi, except_bind_ok]
      dsimp only
      rw [hr, except_bind_ok, except_pure_eq]
    · refine Or.inr ⟨v, t, ?_⟩
      rw [hvi, except_bind_ok]
      dsimp only
      rw [herr2, except_bind_error]
  · exact Or.inr ⟨v, t, by rw [herr, except_bind_error]⟩

theorem joinPagePair_tc_left (ltypes rtypes : List DType) (lns rns : List Str)
    (jc t1c t2c : Str) (rowsI rowsJ : List (List Str))
    (hjc : splitOnEqEq jc = [t1c, t2c])
    (ht1 : t1c ∈ lns) (ht2 : t2c ∈ rns)
    (hllen : lns.length = ltypes.length) (hrlen : rns.length = rtypes.length)
    (hrowsI : ∀ row ∈ rowsI, row.length = ltypes.length)
    (hrowsJ : ∀ row ∈ rowsJ, row.length = rtypes.length)
    (htomb : List.replicate ltypes.length ([] : Str) ∈ rowsI)
    (hty : DType.int ∈ ltypes ∨ DType.float ∈ ltypes) :
    isTC (joinPagePair ltypes rtypes lns rns jc none rowsI rowsJ) := by
  unfold joinPagePair
  refine foldlM_tc_of_mem _ rowsI
    (fun b a ha => joinPairStep_shape ltypes rtypes lns rns jc t1c t2c rowsJ hjc ht1 ht2
      hllen hrlen hrowsJ b a (hrowsI a ha))
    (List.replicate ltypes.length []) htomb ?_ []
  intro b
  obtain ⟨v, t, herr⟩ := convert_tombstone_tc ltypes hty
  exact ⟨v, t, by unfold joinPairStep; rw [herr, except_bind_error]⟩

theorem joinPagePair_shape (ltypes rtypes : List DType) (lns rns : List Str)
    (jc t1c t2c : Str) (rowsI rowsJ : List (List Str))
    (hjc : splitOnEqEq jc = [t1c, t2c])
    (ht1 : t1c ∈ lns) (ht2 : t2c ∈ rns)
    (hllen : lns.length = ltypes.length) (hrlen : rns.length = rtypes.length)
    (hrowsI : ∀ row ∈ rowsI, row.length = ltypes.length)
    (hrowsJ : ∀ row ∈ rowsJ, row.length = rtypes.length) :
    (∃ r, joinPagePair ltypes rtypes lns rns jc none rowsI rowsJ = .ok r) ∨
      isTC (joinPagePair ltypes rtypes lns rns jc none rowsI rowsJ) := by
  unfold joinPagePair
  exact foldlM_ok_or_tc _ rowsI
    (fun b a ha => joinPairStep_shape ltypes rtypes lns rns jc t1c t2c rowsJ hjc ht1 ht2
      hllen hrlen hrowsJ b a (hrowsI a ha)) []

theorem joinPagePair_tc_right (ltypes rtypes : List DType) (lns rns : List Str)
    (jc t1c t2c : Str) (rowsI rowsJ : List (List Str))
    (hjc : splitOnEqEq jc = [t1c, t2c])
    (ht1 : t1c ∈ lns) (ht2 : t2c ∈ rns)
    (hllen : lns.length = ltypes.length) (hrlen : rns.length = rtypes.length)
    (hrowsI : ∀ row ∈ rowsI, row.length = ltypes.length)
    (hrowsJ : ∀ row ∈ rowsJ, row.length = rtypes.length)
    (hne : rowsI ≠ [])
    (htomb : List.replicate rtypes.length ([] : Str) ∈ rowsJ)
    (hty : DType.int ∈ rtypes ∨ DType.float ∈ rtypes) :
    isTC (joinPagePair ltypes rtypes lns rns jc none rowsI rowsJ) := by
  unfold joinPagePair
  match rowsI, hne with
  | row0 :: rest, _ =>
    refine foldlM_tc_of_mem _ (row0 :: rest)
      (fun b a ha => joinPairStep_shape ltypes rtypes lns rns jc t1c t2c rowsJ hjc ht1 ht2
        hllen hrlen hrowsJ b a (hrowsI a ha))
      row0 (by simp) ?_ []
    intro b
    unfold joinPairStep
    have hrow0 : row0.length = ltypes.length := hrowsI row0 (by simp)
    rcases convertRowJoin_shape ltypes row0 hrow0 with
      ⟨vi, hvi, hlenvi⟩ | ⟨v, t, herr⟩
    · have ht1' : ∃ v, ((lns.zip vi).lookup t1c) = some v :=
        lookup_zip_of_mem lns vi t1c ht1 (by omega)
      obtain ⟨v, t, herr2⟩ := joinRowsInner_tc rtypes rns (lns.zip vi) jc t1c t2c rowsJ hjc
        ht1' ht2 hrlen hrowsJ htomb hty
      refine ⟨v, t, ?_⟩
      rw [hvi, except_bind_ok]
      dsimp only
      rw [herr2, except_bind_error]
    · exact ⟨v, t, by rw [herr, except_bind_error]⟩

theorem foldlM_tc_head {α β : Type} (f : β → α → Except DBError β) (x : α) (l : List α)
    (hx : ∀ b, isTC (f b x)) (b0 : β) : isTC (List.foldlM f b0 (x :: l)) := by
  obtain ⟨v, t, he⟩ := hx b0
  exact ⟨v, t, by rw [List.foldlM_cons, he, except_bind_error]⟩

theorem joinRightPageStep_shape (left right : Table) (lns rns : List Str)
    (jc t1c t2c : Str) (rowsI : List (List Str))
    (hjc : splitOnEqEq jc = [t1c, t2c]) (ht1 : t1c ∈ lns) (ht2 : t2c ∈ rns)
    (hllen : lns.length = left.schema.columns.length)
    (hrlen : rns.length = right.schema.columns.length)
    (hrowsI : ∀ row ∈ rowsI, row.length = left.schema.columns.length)
    (j : Nat) (rowsJ : List (List Str)) (hrj : read_page right j = .ok rowsJ)
    (hrowsJ : ∀ row ∈ rowsJ, row.length = right.schema.columns.length)
    (acc : List Chunk) :
    (∃ b2, joinRightPageStep left right lns rns jc none rowsI acc j = .ok b2) ∨
      isTC (joinRightPageStep left right lns rns jc none rowsI acc j) := by
  unfold joinRightPageStep
  rw [hrj, except_bind_ok]
  rcases joinPagePair_shape (left.schema.columns.map (fun cd => cd.2))
      (right.schema.columns.map (fun cd => cd.2)) lns rns jc t1c t2c rowsI rowsJ hjc ht1 ht2
      (by simpa using hllen) (by simpa using hrlen)
      (by simpa using hrowsI) (by simpa using hrowsJ) with ⟨r, hr⟩ | ⟨v, t, he⟩
  · exact Or.inl ⟨acc ++ r, by rw [hr, except_bind_ok, except_pure_eq]⟩
  · exact Or.inr ⟨v, t, by rw [he, except_bind_error]⟩

theorem joinRightPageStep_tc (left right : Table) (lns rns : List Str)
    (jc t1c t2c : Str) (rowsI : List (List Str))
    (hjc : splitOnEqEq jc = [t1c, t2c]) (ht1 : t1c ∈ lns) (ht2 : t2c ∈ rns)
    (hllen : lns.length = left.schema.columns.length)
    (hrlen : rns.length = right.schema.columns.length)
    (hrowsI : ∀ row ∈ rowsI, row.length = left.schema.columns.length)
    (htomb : List.replicate left.schema.columns.length ([] : Str) ∈ rowsI)
    (hty : DType.int ∈ left.schema.columns.map (fun cd => cd.2) ∨
           DType.float ∈ left.schema.columns.map (fun cd => cd.2))
    (j : Nat) (rowsJ : List (List Str)) (hrj : read_page right j = .ok rowsJ)
    (hrowsJ : ∀ row ∈ rowsJ, row.length = right.schema.columns.length)
    (acc : List Chunk) :
    isTC (joinRightPageStep left right lns rns jc none rowsI acc j) := by
  obtain ⟨v, t, he⟩ := joinPagePair_tc_left (left.schema.columns.map (fun cd => cd.2))
    (right.schema.columns.map (fun cd => cd.2)) lns rns jc t1c t2c rowsI rowsJ hjc ht1 ht2
    (by simpa using hllen) (by simpa using hrlen)
    (by simpa using hrowsI) (by simpa using hrowsJ) (by simpa using htomb) hty
  refine ⟨v, t, ?_⟩
  unfold joinRightPageStep
  rw [hrj, except_bind_ok]
  rw [he, except_bind_error]

theorem joinLeftPageStep_shape (left right : Table) (lns rns : List Str)
    (jc t1c t2c : Str)
    (hjc : splitOnEqEq jc = [t1c, t2c]) (ht1 : t1c ∈ lns) (ht2 : t2c ∈ rns)
    (hllen : lns.length = left.schema.columns.length)
    (hrlen : rns.length = right.schema.columns.length)
    (hR : ∀ j ∈ scanPages right, ∃ rows, read_page right j = .ok rows ∧
          ∀ row ∈ rows, row.length = right.schema.columns.length)
    (i : Nat) (rowsI : List (List Str)) (hri : read_page left i = .ok rowsI)
    (hrowsI : ∀ row ∈ rowsI, row.length = left.schema.columns.length)
    (acc : List Chunk) :
    (∃ b2, joinLeftPageStep left right lns rns jc none acc i = .ok b2) ∨
      isTC (joinLeftPageStep left right lns rns jc none acc i) := by
  unfold joinLeftPageStep
  rw [hri, except_bind_ok]
  refine foldlM_ok_or_tc _ (scanPages right) ?_ acc
  intro b j hj
  obtain ⟨rowsJ, hrj, hrowsJ⟩ := hR j hj
  exact joinRightPageStep_shape left right lns rns jc t1c t2c rowsI hjc ht1 ht2 hllen
    hrlen hrowsI j rowsJ hrj hrowsJ b

/-- A fresh, never-inserted table with an `int` column: `auto_id = -1`, so a
full-table scan visits zero page files. -/
def c10fresh : Table := create_table [(pstr "b", DType.int)] (pstr "b")

/-- A table with an `int` column whose row 0 was deleted: the page file keeps
the tombstone (an all-empty CSV row) at slot 0, and the live row `5` at
slot 1. -/
def c10rint : Table :=
  { schema := ⟨[(pstr "b", DType.int)], pstr "b"⟩
    metadata := ⟨1, [0]⟩
    pk_index := [(pstr "5", 1)]
    pages := [(0, [[pstr ""], [pstr "5"]])] }

/-- An all-string table whose row 1 was deleted, leaving a tombstone at
slot 1 of its page. -/
def c10l : Table :=
  { schema := ⟨[(pstr "a", DType.str)], pstr "a"⟩
    metadata := ⟨1, [1]⟩
    pk_index := [(pstr "x", 0)]
    pages := [(0, [[pstr "x"], [pstr ""]])] }

/-- An all-string table with one live row whose join column holds the empty
string. -/
def c10r : Table :=
  { schema := ⟨[(pstr "b", DType.str)], pstr "b"⟩
    metadata := ⟨0, []⟩
    pk_index := [(pstr "", 0)]
    pages := [(0, [[pstr ""]])] }

set_option maxRecDepth 100000 in
/-- Claim C10 counterexample: `c10rint` has an `int` column and has had a row
deleted (its page holds a tombstone), yet joining it against a fresh table
succeeds with an empty result rather than failing with a type-conversion
error — the scan of the fresh table visits zero page files
(`auto_id = -1` gives `-1 // 64 + 1 = 0` files), so the nested-loop join
never coerces any row of the tombstoned table. -/
theorem c10_counterexample :
    executeJoinQuery c10rint c10fresh (pstr "L") (pstr "R") (pstr "L.b==R.b") none
      = .ok ([pstr "L.b", pstr "R.b"], []) := by decide

set_option maxRecDepth 100000 in
/-- Claim C10 (amended): the join path reads every raw CSV row of both tables
without skipping tombstones. If the left table's schema has an `int` or
`float` column, some scanned left page holds a tombstone row (all fields
empty), every scanned page of both tables is readable with well-formed row
widths, the join condition splits into one column of each side, and the right
table's scan visits at least one page file, then the join fails with a
type-conversion error from coercing a tombstone's empty field. Moreover, for
all-string schemas tombstones participate in the join: joining `c10l` (whose
page holds a tombstone) with `c10r` (whose live row's join column is empty)
matches the tombstone against that row and returns the merged all-empty
record. -/
theorem c10_join_reads_tombstones (left right : Table) (lname rname jc t1c t2c : Str)
    (hjc : splitOnEqEq jc = [t1c, t2c])
    (ht1 : t1c ∈ nsCols lname (left.schema.columns.map (fun cd => cd.1)))
    (ht2 : t2c ∈ nsCols rname (right.schema.columns.map (fun cd => cd.1)))
    (hL : ∀ i ∈ scanPages left, ∃ rows, read_page left i = .ok rows ∧
          ∀ row ∈ rows, row.length = left.schema.columns.length)
    (hR : ∀ j ∈ scanPages right, ∃ rows, read_page right j = .ok rows ∧
          ∀ row ∈ rows, row.length = right.schema.columns.length)
    (i : Nat) (hi : i ∈ scanPages left) (rowsI : List (List Str))
    (hri : read_page left i = .ok rowsI)
    (htomb : List.replicate left.schema.columns.length ([] : Str) ∈ rowsI)
    (hty : DType.int ∈ left.schema.columns.map (fun cd => cd.2) ∨
           DType.float ∈ left.schema.columns.map (fun cd => cd.2))
    (hrne : scanPages right ≠ []) :
    isTC (executeJoinQuery left right lname rname jc none) ∧
      executeJoinQuery c10l c10r (pstr "L") (pstr "R") (pstr "L.a==R.b") none
        = .ok ([pstr "L.a", pstr "R.b"],
               [[some (Value.vStr []), some (Value.vStr [])]]) := by
  constructor
  · have hllen : (nsCols lname (left.schema.columns.map (fun cd => cd.1))).length
        = left.schema.columns.length := by simp [nsCols]
    have hrlen : (nsCols rname (right.schema.columns.map (fun cd => cd.1))).length
        = right.schema.columns.length := by simp [nsCols]
    have hrowsI : ∀ row ∈ rowsI, row.length = left.schema.columns.length := by
      obtain ⟨rows0, hr0, hwf0⟩ := hL i hi
      rw [hri] at hr0
      injection hr0 with hh
      subst hh
      exact hwf0
    have houter : isTC (List.foldlM (joinLeftPageStep left right
        (nsCols lname (left.schema.columns.map (fun cd => cd.1)))
        (nsCols rname (right.schema.columns.map (fun cd => cd.1))) jc none)
        [] (scanPages left)) := by
      refine foldlM_tc_of_mem _ (scanPages left) ?_ i hi ?_ []
      · intro b i2 hi2
        obtain ⟨rows2, hr2, hwf2⟩ := hL i2 hi2
        exact joinLeftPageStep_shape left right _ _ jc t1c t2c hjc ht1 ht2 hllen hrlen
          hR i2 rows2 hr2 hwf2 b
      · intro b
        unfold joinLeftPageStep
        rw [hri, except_bind_ok]
        obtain ⟨j, rest, hsp⟩ := List.exists_cons_of_ne_nil hrne
        rw [hsp]
        obtain ⟨rowsJ, hrj, hrowsJ⟩ := hR j (by rw [hsp]; exact List.mem_cons_self j rest)
        exact foldlM_tc_head _ j rest
          (fun b2 => joinRightPageStep_tc left right _ _ jc t1c t2c rowsI hjc ht1 ht2
            hllen hrlen hrowsI htomb hty j rowsJ hrj hrowsJ b2) b
    obtain ⟨v, t, he⟩ := houter
    refine ⟨v, t, ?_⟩
    unfold executeJoinQuery
    dsimp only
    rw [he, except_bind_error]
  · decide

set_option maxRecDepth 100000 in
/-- Claim C10 witness: joining the tombstoned `int` table `c10rint` with
itself satisfies every hypothesis of the amended claim and fails with a
type-conversion error. -/
theorem c10_witness :
    isTC (executeJoinQuery c10rint c10rint (pstr "L") (pstr "R") (pstr "L.b==R.b") none) ∧
      executeJoinQuery c10l c10r (pstr "L") (pstr "R") (pstr "L.a==R.b") none
        = .ok ([pstr "L.a", pstr "R.b"],
               [[some (Value.vStr []), some (Value.vStr [])]]) :=
  c10_join_reads_tombstones c10rint c10rint (pstr "L") (pstr "R") (pstr "L.b==R.b")
    (pstr "L.b") (pstr "R.b") (by decide) (by decide) (by decide)
    (by
      intro j hj
      have hsp : scanPages c10rint = [0] := by decide
      rw [hsp] at hj
      simp at hj
      subst hj
      exact ⟨[[pstr ""], [pstr "5"]], by decide, by decide⟩)
    (by
      intro j hj
      have hsp : scanPages c10rint = [0] := by decide
      rw [hsp] at hj
      simp at hj
      subst hj
      exact ⟨[[pstr ""], [pstr "5"]], by decide, by decide⟩)
    0 (by decide) [[pstr ""], [pstr "5"]] (by decide) (by decide) (by decide) (by decide)

end SimpleDB
